import Mathlib

/-!
# Verification of the trace-viewer archive loader and reconstruction engine

Shallow embedding of `src/trace_loader.rs`, `src/test_case_loader.rs`,
`src/models.rs` and the dispatch logic of `src/lib.rs` (`App::load_file`).

Modelling conventions:
* Rust `f64` time stamps are modelled as `ℚ`.  The only `f64` operations the
  loader performs on them are order comparisons (`<`, `>`, `partial_cmp`) and
  assignments, which agree with `ℚ` on all non-NaN inputs appearing here.
  The sentinel `f64::MAX` is the exact rational `2^1024 - 2^971`.
* JSON text is modelled at the level of line-separated values: a line of a
  `.trace`/`.network`/`.md` file is a `RawLine`, carrying its source text and,
  when the text is a valid JSON document, the parsed JSON value.  The decoding
  of a JSON value into a `TraceEvent` (serde's derived `Deserialize` with
  `#[serde(tag = "type")]`, `rename_all = "camelCase"`, `#[serde(default)]`
  and `#[serde(other)]`) is modelled by `decodeEvent` below.
* A ZIP archive is modelled by its ordered entry list `List (String × EntryContent)`.
  `EntryContent.text` is an entry whose bytes are valid UTF-8 text (given as
  lines), `EntryContent.zip` an entry whose bytes form a well-formed nested ZIP,
  `EntryContent.bin` other readable binary data, and `EntryContent.corrupt` an
  entry whose data cannot be read (I/O error on extraction).
* `std::collections::HashMap` iteration order is unspecified (it depends on a
  per-map random hash seed).  Every drain of a hash map is therefore
  parameterised by an order oracle `R : HashOrder`; an execution of the Rust
  program corresponds to some oracle satisfying `ValidOrder` (each drained
  list is a permutation of the map's contents).  Theorems quantified over all
  valid oracles hold of every possible execution; an exhibited valid oracle
  demonstrates a possible execution.
-/

/-- `f64::MAX`, the initial value of `context.start_time` in `parse_trace`:
the exact integer value of `(2 - 2⁻⁵²)·2¹⁰²³ = 2¹⁰²⁴ - 2⁹⁷¹`, written in
decimal so that it evaluates with numeral arithmetic inside the kernel. -/
def f64MAX : ℚ := ((179769313486231570814527423731704356798070567525844996598917476803157260780028538760589558632766878171540458953514382464234321326889464182768467546703537516986049910576551282076245490090389328944075868508455133942304583236903222948165808559332123348274797826204144723168738177180919299881250404026184124858368 : ℕ) : ℚ)

/-- JSON values (`serde_json::Value`).  Numbers are modelled as rationals. -/
inductive Json where
  | null : Json
  | bool (b : Bool) : Json
  | num (q : ℚ) : Json
  | str (s : String) : Json
  | arr (elems : List Json) : Json
  | obj (fields : List (String × Json)) : Json

/-- First binding of a key in a JSON object's field list. -/
def jGet : List (String × Json) → String → Option Json
  | [], _ => none
  | (k, v) :: rest, key => if k = key then some v else jGet rest key

/-- One line of a text file.  `junk` is a line that is not a valid JSON
document (or otherwise fails serde decoding at the lexical level); `json`
carries the parsed JSON value together with the source text. -/
inductive RawLine where
  | junk (s : String) : RawLine
  | json (s : String) (j : Json) : RawLine

/-- The source text of a line. -/
def lineText : RawLine → String
  | .junk s => s
  | .json s _ => s

/-- The content of one ZIP entry, by how its bytes can be interpreted:
`text` — valid UTF-8 text (split into lines); `zip` — bytes that reopen as a
well-formed nested ZIP archive with the given entries; `bin` — other readable
binary data; `corrupt` — entry data whose extraction fails with an I/O
error. -/
inductive EntryContent where
  | text (lines : List RawLine) : EntryContent
  | zip (entries : List (String × EntryContent)) : EntryContent
  | bin (data : List Nat) : EntryContent
  | corrupt : EntryContent

/-- An archive: its entries in ZIP index order. -/
abbrev Archive := List (String × EntryContent)

/- ## The data model of `src/models.rs` (the fields `parse_trace` populates) -/

structure LogEntry where
  time : ℚ
  message : String

structure SerializedError where
  message : Option String
  stack : Option String

structure ScreencastFrame where
  sha1 : String
  timestamp : ℚ
  width : Nat
  height : Nat
  frame_swap_wall_time : Option ℚ

structure PageEntry where
  page_id : String
  screencast_frames : List ScreencastFrame

structure ActionEntry where
  action_type : String
  call_id : String
  start_time : ℚ
  end_time : ℚ
  title : Option String
  cls : Option String      -- `class` in Rust (a keyword in Lean)
  method : Option String
  params : List (String × Json)
  page_id : Option String
  parent_id : Option String
  error : Option SerializedError
  log : List LogEntry

structure ResourceSnapshot where
  url : String
  content_type : Option String
  sha1 : Option String

structure ErrorEvent where
  message : String
  stack : Option String

/- Payload structures of the tagged `TraceEvent` enum. -/

structure BeforeActionEvent where
  call_id : String
  start_time : ℚ
  title : Option String
  cls : String
  method : String
  params : List (String × Json)
  page_id : Option String
  parent_id : Option String

structure AfterActionEvent where
  call_id : String
  end_time : ℚ
  error : Option SerializedError
  result : Option Json

structure InputActionEvent where
  call_id : String
  input_snapshot : Option String

structure ScreencastFrameEvent where
  page_id : String
  sha1 : String
  width : Nat
  height : Nat
  timestamp : ℚ

structure ContextOptionsEvent where
  version : Nat
  browser_name : String
  platform : Option String
  playwright_version : Option String
  wall_time : ℚ
  monotonic_time : ℚ
  title : Option String

/-- `TraceEvent` (`#[serde(tag = "type")]`, with an `#[serde(other)]` variant). -/
inductive TraceEvent where
  | before (e : BeforeActionEvent) : TraceEvent
  | after (e : AfterActionEvent) : TraceEvent
  | input (e : InputActionEvent) : TraceEvent
  | screencastFrame (e : ScreencastFrameEvent) : TraceEvent
  | contextOptions (e : ContextOptionsEvent) : TraceEvent
  | other : TraceEvent

structure ContextEntry where
  start_time : ℚ
  end_time : ℚ
  browser_name : String
  platform : Option String
  playwright_version : Option String
  wall_time : ℚ
  title : Option String
  pages : List PageEntry
  actions : List ActionEntry
  resources : List ResourceSnapshot
  events : List TraceEvent
  errors : List ErrorEvent

structure TraceModel where
  contexts : List ContextEntry

structure TestAttachment where
  name : String
  mime_type : String
  /-- The base64 `data:` URL.  The URL is the image of the entry's bytes
  under an injective encoding, so it is modelled by its preimage: the entry
  content the bytes were read from. -/
  data_url : EntryContent
  size_bytes : Option Nat

inductive TestStatus where
  | passed | failed | skipped | pending

structure TestCase where
  id : String
  name : String
  status : TestStatus
  markdown_content : Option (List String)
  screenshots : List TestAttachment
  video : Option TestAttachment
  trace_file : Option TestAttachment
  duration_ms : Option ℚ
  error_message : Option String

structure TestCaseCollection where
  test_cases : List TestCase

/- ## The serde decoder for `TraceEvent`

Field extraction mirrors serde_json's behaviour on the derived `Deserialize`
implementations: required fields must be present with the right JSON type,
`#[serde(default)]` fields fall back to their default when missing, `Option`
fields accept `null`, numeric fields accept any JSON number for `f64` and only
unsigned integers within range for `u32`. -/

/-- A required `String` field. -/
def asStr : Option Json → Option String
  | some (.str s) => some s
  | _ => none

/-- A required `f64` field. -/
def asNum : Option Json → Option ℚ
  | some (.num q) => some q
  | _ => none

/-- A required `u32` field: a JSON number that is an integer in `[0, 2^32)`. -/
def asU32 : Option Json → Option Nat
  | some (.num q) =>
    if q.den = 1 ∧ 0 ≤ q.num ∧ q.num < 4294967296 then some q.num.toNat else none
  | _ => none

/-- An `Option<String>` field with `#[serde(default)]`. -/
def asOptStr : Option Json → Option (Option String)
  | none => some none
  | some .null => some none
  | some (.str s) => some (some s)
  | some _ => none

/-- A `HashMap<String, Value>` field with `#[serde(default)]`. -/
def asParams : Option Json → Option (List (String × Json))
  | none => some []
  | some (.obj fields) => some fields
  | some _ => none

/-- An `Option<SerializedError>` field with `#[serde(default)]`. -/
def asOptErr : Option Json → Option (Option SerializedError)
  | none => some none
  | some .null => some none
  | some (.obj fields) => do
    let msg ← asOptStr (jGet fields "message")
    let stack ← asOptStr (jGet fields "stack")
    some (some ⟨msg, stack⟩)
  | some _ => none

/-- An `Option<serde_json::Value>` field with `#[serde(default)]`. -/
def asOptVal : Option Json → Option (Option Json)
  | none => some none
  | some .null => some none
  | some j => some (some j)

/-- serde's derived `Deserialize` for `TraceEvent`: dispatch on the `"type"`
tag; unknown tags land in the `#[serde(other)]` variant; a missing or
non-string tag, or an ill-typed payload field, is a decode error (`none`). -/
def decodeEvent : Json → Option TraceEvent
  | .obj fields =>
    match jGet fields "type" with
    | some (.str tag) =>
      if tag = "before" then do
        let call_id ← asStr (jGet fields "callId")
        let start_time ← asNum (jGet fields "startTime")
        let title ← asOptStr (jGet fields "title")
        let cls ← asStr (jGet fields "class")
        let method ← asStr (jGet fields "method")
        let params ← asParams (jGet fields "params")
        let page_id ← asOptStr (jGet fields "pageId")
        let parent_id ← asOptStr (jGet fields "parentId")
        some (.before ⟨call_id, start_time, title, cls, method, params, page_id, parent_id⟩)
      else if tag = "after" then do
        let call_id ← asStr (jGet fields "callId")
        let end_time ← asNum (jGet fields "endTime")
        let error ← asOptErr (jGet fields "error")
        let result ← asOptVal (jGet fields "result")
        some (.after ⟨call_id, end_time, error, result⟩)
      else if tag = "input" then do
        let call_id ← asStr (jGet fields "callId")
        let input_snapshot ← asOptStr (jGet fields "inputSnapshot")
        some (.input ⟨call_id, input_snapshot⟩)
      else if tag = "screencast-frame" then do
        let page_id ← asStr (jGet fields "pageId")
        let sha1 ← asStr (jGet fields "sha1")
        let width ← asU32 (jGet fields "width")
        let height ← asU32 (jGet fields "height")
        let timestamp ← asNum (jGet fields "timestamp")
        some (.screencastFrame ⟨page_id, sha1, width, height, timestamp⟩)
      else if tag = "context-options" then do
        let version ← asU32 (jGet fields "version")
        let browser_name ← asStr (jGet fields "browserName")
        let platform ← asOptStr (jGet fields "platform")
        let playwright_version ← asOptStr (jGet fields "playwrightVersion")
        let wall_time ← asNum (jGet fields "wallTime")
        let monotonic_time ← asNum (jGet fields "monotonicTime")
        let title ← asOptStr (jGet fields "title")
        some (.contextOptions
          ⟨version, browser_name, platform, playwright_version, wall_time, monotonic_time, title⟩)
      else
        some .other
    | _ => none
  | _ => none

/- ## Hash-map model

`std::collections::HashMap` insertion (`insert`, `get_mut`, `entry`) is
modelled by an association list with unique keys (value replaced in place on
re-insertion).  Iteration/drain order is unspecified in Rust; it is supplied
by an order oracle. -/

/-- `HashMap::insert`: replace the value of an existing key, else append. -/
def alInsert {α : Type} (k : String) (v : α) : List (String × α) → List (String × α)
  | [] => [(k, v)]
  | (k', v') :: rest => if k' = k then (k, v) :: rest else (k', v') :: alInsert k v rest

/-- `HashMap::get` / `ZipArchive::by_name`: first binding of a key. -/
def alLookup {α : Type} : List (String × α) → String → Option α
  | [], _ => none
  | (k', v) :: rest, k => if k' = k then some v else alLookup rest k

/-- An order oracle: how each hash map drains its entries.  A real execution
drains every map in some order; `ValidOrder` states that each drained list is
a permutation of the map's entries. -/
def HashOrder : Type 1 := (α : Type) → List α → List α

/-- The oracle models a possible execution: every drain is a permutation. -/
def ValidOrder (R : HashOrder) : Prop := ∀ (α : Type) (l : List α), List.Perm (R α l) l

/-- Drain in some fixed order (one possible hash iteration order). -/
def idO : HashOrder := fun _ l => l

/-- Drain in reverse order (another possible hash iteration order). -/
def revO : HashOrder := fun _ l => l.reverse

theorem idO_valid : ValidOrder idO := fun _ l => List.Perm.refl l

theorem revO_valid : ValidOrder revO := fun _ l => List.reverse_perm l

/- ## Lines of a text entry -/

/-- `str::trim`: drop whitespace from both ends (executable model of the
Rust/Lean trim, written over the character list so that it evaluates in the
kernel). -/
def trimStr (s : String) : String :=
  ⟨((s.data.dropWhile Char.isWhitespace).reverse.dropWhile Char.isWhitespace).reverse⟩

/-- `serde_json::from_str::<TraceEvent>(line)` after the blank-line check of
`parse_trace`: blank lines are skipped, junk fails, JSON lines go through
`decodeEvent`. -/
def decodeLine (l : RawLine) : Option TraceEvent :=
  if trimStr (lineText l) = "" then none
  else match l with
    | .junk _ => none
    | .json _ j => decodeEvent j

/- ## The reconstruction state machine of `parse_trace` -/

/-- The mutable state of `parse_trace`'s main loop: the `context` record's
scalar fields, the two hash maps, and the raw event list. -/
structure PState where
  actionsMap : List (String × ActionEntry)
  pagesMap : List (String × PageEntry)
  events : List TraceEvent
  startTime : ℚ
  endTime : ℚ
  browserName : String
  platform : Option String
  playwrightVersion : Option String
  wallTime : ℚ
  title : Option String

/-- The state before any line is processed (`trace_loader.rs:182-200`). -/
def initState : PState :=
  { actionsMap := [], pagesMap := [], events := [], startTime := f64MAX, endTime := 0,
    browserName := "", platform := none, playwrightVersion := none, wallTime := 0,
    title := none }

/-- One transition of the reconstruction state machine
(`trace_loader.rs:210-270`), including the final `events.push(event)`. -/
def applyEvent (st : PState) (ev : TraceEvent) : PState :=
  let st' :=
    match ev with
    | .contextOptions c =>
      { st with browserName := c.browser_name, platform := c.platform,
                playwrightVersion := c.playwright_version, wallTime := c.wall_time,
                title := c.title }
    | .before b =>
      let action : ActionEntry :=
        { action_type := "before", call_id := b.call_id, start_time := b.start_time,
          end_time := 0, title := b.title, cls := some b.cls, method := some b.method,
          params := b.params, page_id := b.page_id, parent_id := b.parent_id,
          error := none, log := [] }
      { st with
        startTime := if action.start_time < st.startTime then action.start_time else st.startTime,
        actionsMap := alInsert b.call_id action st.actionsMap }
    | .after a =>
      match alLookup st.actionsMap a.call_id with
      | some action =>
        let action' := { action with end_time := a.end_time, error := a.error }
        { st with
          actionsMap := alInsert a.call_id action' st.actionsMap,
          endTime := if a.end_time > st.endTime then a.end_time else st.endTime }
      | none => st
    | .screencastFrame f =>
      let page := (alLookup st.pagesMap f.page_id).getD ⟨f.page_id, []⟩
      let frame : ScreencastFrame :=
        { sha1 := f.sha1, timestamp := f.timestamp, width := f.width, height := f.height,
          frame_swap_wall_time := none }
      let page' := { page with screencast_frames := page.screencast_frames ++ [frame] }
      { st with pagesMap := alInsert f.page_id page' st.pagesMap }
    | .input _ => st
    | .other => st
  { st' with events := st.events ++ [ev] }

/-- The main loop over the trace file's lines: skip blank and undecodable
lines, apply every decoded event. -/
def runLines (st : PState) (lines : List RawLine) : PState :=
  lines.foldl (fun s l => match decodeLine l with | some ev => applyEvent s ev | none => s) st

/-- The network-file loop (`trace_loader.rs:279-291`): decoded events are
appended to the raw event list only, with no state transition. -/
def runNetwork (st : PState) (network : Option (List RawLine)) : PState :=
  match network with
  | none => st
  | some lines =>
    lines.foldl
      (fun s l => match decodeLine l with
        | some ev => { s with events := s.events ++ [ev] }
        | none => s) st

/- ## The final stable sort (`sort_by(partial_cmp(start_time))`) -/

/-- Insert an action after every element whose start time is `≤` its own:
one step of a stable ascending insertion sort. -/
def insertByStart (a : ActionEntry) : List ActionEntry → List ActionEntry
  | [] => [a]
  | b :: l => if b.start_time ≤ a.start_time then b :: insertByStart a l else a :: b :: l

/-- A stable sort ascending by `start_time`, modelling Rust's stable
`sort_by(|a, b| a.start_time.partial_cmp(&b.start_time).unwrap())`. -/
def sortByStart (l : List ActionEntry) : List ActionEntry :=
  l.foldl (fun acc a => insertByStart a acc) []

/-- `parse_trace`'s finalisation (`trace_loader.rs:293-303`): drain the two
hash maps (in oracle order), sort the actions, keep the raw events. -/
def finalizeCtx (R : HashOrder) (st : PState) : ContextEntry :=
  { start_time := st.startTime, end_time := st.endTime, browser_name := st.browserName,
    platform := st.platform, playwright_version := st.playwrightVersion,
    wall_time := st.wallTime, title := st.title,
    pages := (R _ st.pagesMap).map Prod.snd,
    actions := sortByStart ((R _ st.actionsMap).map Prod.snd),
    resources := [], events := st.events, errors := [] }

/-- The error type of `trace_loader.rs` (`LoadError`).  The Rust variants
carry human-readable message strings, which no caller inspects; they are
dropped here.  Note that the enum has exactly these four variants — there is
no depth-limit error. -/
inductive LoadError where
  | zipError | ioError | parseError | missingTraceFile

/-- `parse_trace(trace_content, network_content)`: run the trace lines, run
the network lines, finalise.  The Rust function's only exit is `Ok(context)`. -/
def parse_trace (R : HashOrder) (traceLines : List RawLine)
    (network : Option (List RawLine)) : Except LoadError ContextEntry :=
  .ok (finalizeCtx R (runNetwork (runLines initState traceLines) network))

/- ## String utilities used by the loaders

All are written over `List Char` so that they evaluate inside the kernel.
Rust's Unicode-aware `to_lowercase`/`to_uppercase` are modelled by their
ASCII restriction (every string the claims mention is ASCII). -/

/-- `str::starts_with`. -/
def strStartsWith (s pfx : String) : Bool := List.isPrefixOf pfx.data s.data

/-- `str::ends_with`. -/
def strEndsWith (s suffix : String) : Bool :=
  List.isPrefixOf suffix.data.reverse s.data.reverse

/-- Fuel-indexed loop of `str::trim_end_matches` (each round strips one copy
of the suffix; `s.length` rounds always suffice). -/
def trimEndMatchesAux (suffix : String) : Nat → String → String
  | 0, s => s
  | n + 1, s =>
    if strEndsWith s suffix && !suffix.data.isEmpty then
      trimEndMatchesAux suffix n ⟨s.data.take (s.data.length - suffix.data.length)⟩
    else s

/-- `str::trim_end_matches`: repeatedly strip a trailing occurrence of
`suffix`. -/
def trim_end_matches (s suffix : String) : String :=
  trimEndMatchesAux suffix s.data.length s

/-- Split a character list at every character satisfying `p` (keeping empty
segments, like Rust's `str::split`). -/
def splitCharBy (p : Char → Bool) (l : List Char) : List (List Char) :=
  l.foldr
    (fun c acc =>
      if p c then [] :: acc
      else match acc with
        | h :: t => (c :: h) :: t
        | [] => [[c]])
    [[]]

/-- `extract_folder_name` (`test_case_loader.rs:86-92`): trim leading and
trailing `/`, then take the first path segment.  The Rust original returns
`Option<&str>`, but `split('/').next()` is always `Some`. -/
def extract_folder_name (path : String) : String :=
  let l := ((path.data.dropWhile (· = '/')).reverse.dropWhile (· = '/')).reverse
  ⟨((splitCharBy (· = '/') l).headI)⟩

/-- `path.split('/').next_back().unwrap_or(path)`: the last path segment. -/
def lastSegment (path : String) : String := ⟨(splitCharBy (· = '/') path.data).getLastI⟩

/-- ASCII `str::to_lowercase`. -/
def toLowerStr (s : String) : String := ⟨s.data.map Char.toLower⟩

/-- Does `s` contain `sub` as a substring (`str::contains`)? -/
def listContainsSub (needle : List Char) : List Char → Bool
  | [] => needle.isEmpty
  | c :: t => List.isPrefixOf needle (c :: t) || listContainsSub needle t

/-- `str::contains` for string patterns. -/
def strContains (s sub : String) : Bool := listContainsSub sub.data s.data

/-- `format_test_name` (`test_case_loader.rs:225-240`): replace `-`/`_` by
spaces, split on whitespace, capitalise each word, join with single spaces. -/
def format_test_name (folder : String) : String :=
  let replaced := folder.data.map fun c => if c = '-' ∨ c = '_' then ' ' else c
  let words := (splitCharBy Char.isWhitespace replaced).filter fun w => !w.isEmpty
  let caps := words.map fun w => match w with | [] => [] | c :: rest => c.toUpper :: rest
  ⟨List.intercalate [' '] caps⟩

/-- `extract_first_line` (`test_case_loader.rs:242-246`): first non-blank
line, trimmed.  The markdown body is modelled as its list of lines. -/
def extract_first_line (text : List String) : Option String :=
  (text.find? fun ln => !(trimStr ln == "")).map trimStr

/-- `determine_mime_type` (`test_case_loader.rs:208-223`). -/
def determine_mime_type (filename : String) : String :=
  let f := toLowerStr filename
  if strEndsWith f ".png" then "image/png"
  else if strEndsWith f ".jpg" || strEndsWith f ".jpeg" then "image/jpeg"
  else if strEndsWith f ".webm" then "video/webm"
  else if strEndsWith f ".mp4" then "video/mp4"
  else if strEndsWith f ".zip" then "application/zip"
  else "application/octet-stream"

/- ## The archive model -/

/-- `read_file_from_archive` (`trace_loader.rs:163-176`): `by_name` then
`read_to_string`.  A missing entry is a `ZipError`; unreadable or non-UTF-8
data is an `IoError`. -/
def read_file_from_archive (es : Archive) (name : String) :
    Except LoadError (List RawLine) :=
  match alLookup es name with
  | none => .error .zipError
  | some (.text lines) => .ok lines
  | some _ => .error .ioError

/-- Does this entry name match the report-bundle rule
`name.starts_with("data/") && name.ends_with(".zip")`? -/
def isDataZip (name : String) : Bool := strStartsWith name "data/" && strEndsWith name ".zip"

/-- The body of the `for ordinal in trace_files` loop of
`load_single_trace_archive` (`trace_loader.rs:140-158`): read
`<ordinal>.trace`, read `<ordinal>.network` when such an entry exists, parse
one context. -/
def load_one_ordinal (R : HashOrder) (es : Archive) (ordinal : String) :
    Except LoadError ContextEntry :=
  match read_file_from_archive es (ordinal ++ ".trace") with
  | .error e => .error e
  | .ok traceContent =>
    let networkContent : Except LoadError (Option (List RawLine)) :=
      match alLookup es (ordinal ++ ".network") with
      | some _ =>
        match read_file_from_archive es (ordinal ++ ".network") with
        | .error e => .error e
        | .ok lines => .ok (some lines)
      | none => .ok none
    match networkContent with
    | .error e => .error e
    | .ok network => parse_trace R traceContent network

/-- The `for ordinal in trace_files` loop itself: contexts accumulate in
ordinal order; the first failure (`?`) aborts the whole load. -/
def load_ordinal_list (R : HashOrder) (es : Archive) :
    List String → Except LoadError (List ContextEntry)
  | [] => .ok []
  | ordinal :: rest =>
    match load_one_ordinal R es ordinal with
    | .error e => .error e
    | .ok ctx =>
      match load_ordinal_list R es rest with
      | .error e => .error e
      | .ok ctxs => .ok (ctx :: ctxs)

/-- The ordinals of the `.trace` entries, in ZIP index order
(`trace_loader.rs:115-130`). -/
def traceOrdinals (es : Archive) : List String :=
  es.foldl
    (fun acc e => if strEndsWith e.1 ".trace" then acc ++ [trim_end_matches e.1 ".trace"] else acc)
    []

/-- `load_single_trace_archive` (`trace_loader.rs:107-161`): collect the
ordinals of all `.trace` entries in index order, then for each ordinal read
`<ordinal>.trace`, optionally read `<ordinal>.network`, and parse. -/
def load_single_trace_archive (R : HashOrder) (es : Archive) :
    Except LoadError TraceModel :=
  let traceFiles := traceOrdinals es
  if traceFiles.isEmpty then
    .error .missingTraceFile
  else
    match load_ordinal_list R es traceFiles with
    | .error e => .error e
    | .ok contexts => .ok ⟨contexts⟩

/- ## The recursive trace loader (`load_trace_from_zip` / `load_report_archive`) -/

/-- Auxiliary size bound: filtering never enlarges a list's `sizeOf`. -/
theorem sizeOf_filter_le {α : Type} [SizeOf α] (p : α → Bool) (l : List α) :
    sizeOf (l.filter p) ≤ sizeOf l := by
  induction l with
  | nil => simp [List.filter]
  | cons a t ih =>
    simp only [List.filter]
    cases p a <;> simp only [List.cons.sizeOf_spec] <;> omega

mutual

/-- `load_trace_from_zip` (`trace_loader.rs:28-54`): if any entry name starts
with `data/` and ends with `.zip`, treat the archive as a report archive,
otherwise as a single-trace archive. -/
def load_trace_from_zip (R : HashOrder) (es : Archive) : Except LoadError TraceModel :=
  if es.any (fun e => isDataZip e.1) then load_report_archive R es
  else load_single_trace_archive R es
termination_by (sizeOf es, 2)

/-- `load_report_archive` (`trace_loader.rs:56-105`): collect all `data/*.zip`
entries in index order, fail with `MissingTraceFile` if there are none, load
each nested archive recursively (`?` propagates the first failure), then
concatenate all contexts in entry order. -/
def load_report_archive (R : HashOrder) (es : Archive) : Except LoadError TraceModel :=
  let nested := es.filter fun e => isDataZip e.1
  if nested.isEmpty then .error .missingTraceFile
  else
    match load_nested_list R nested with
    | .error e => .error e
    | .ok contextLists => .ok ⟨contextLists.flatten⟩
termination_by (sizeOf es, 1)
decreasing_by
  have h := sizeOf_filter_le (fun e => isDataZip e.1) es
  rcases Nat.lt_or_ge (sizeOf (es.filter fun e => isDataZip e.1)) (sizeOf es) with hlt | hge
  · exact Prod.Lex.left _ _ hlt
  · have : sizeOf (es.filter fun e => isDataZip e.1) = sizeOf es := Nat.le_antisymm h hge
    rw [this]
    exact Prod.Lex.right _ (by omega)

/-- The loop body of `load_report_archive`: read each nested entry's bytes
(`IoError` if the entry data is unreadable), reopen them as a ZIP
(`ZipError` if they are not one), and recurse. -/
def load_nested_list (R : HashOrder) (es : Archive) : Except LoadError (List (List ContextEntry)) :=
  match es with
  | [] => .ok []
  | (_, c) :: rest =>
    let one : Except LoadError TraceModel :=
      match c with
      | .zip sub => load_trace_from_zip R sub
      | .corrupt => .error .ioError
      | .text _ => .error .zipError
      | .bin _ => .error .zipError
    match one with
    | .error e => .error e
    | .ok m =>
      match load_nested_list R rest with
      | .error e => .error e
      | .ok ms => .ok (m.contexts :: ms)
termination_by (sizeOf es, 0)
decreasing_by
  · refine Prod.Lex.left _ _ ?_
    simp only [List.cons.sizeOf_spec, Prod.mk.sizeOf_spec, EntryContent.zip.sizeOf_spec]
    omega
  · refine Prod.Lex.left _ _ ?_
    simp only [List.cons.sizeOf_spec]
    omega

end

/- ## The test-case bundle loader (`test_case_loader.rs`) -/

/-- The error type `TestCaseLoadError` (message strings dropped, as for
`LoadError`). -/
inductive TestCaseLoadError where
  | zipError | ioError | parseError

/-- A deterministic surrogate of an entry's byte count (`bytes.len()`); exact
only for `bin` entries, which is all any claim needs — no claim inspects a
recorded size. -/
def entryByteLen : EntryContent → Nat
  | .bin d => d.length
  | .text lines => lines.length
  | .zip es => es.length
  | .corrupt => 0

/-- `entry(folder).or_default().push(name)`: append `v` to the group of key
`k`, creating the group on first use. -/
def alPush (k v : String) : List (String × List String) → List (String × List String)
  | [] => [(k, [v])]
  | (k', vs) :: rest => if k' = k then (k', vs ++ [v]) :: rest else (k', vs) :: alPush k v rest

/-- The grouping pass of `load_test_cases_from_zip`
(`test_case_loader.rs:45-63`): skip directory entries (names ending in `/`),
`__MACOSX` entries and `._` prefixed names; group the rest by
`extract_folder_name`. -/
def folderGroups (es : Archive) : List (String × List String) :=
  es.foldl
    (fun acc e =>
      if strEndsWith e.1 "/" || strStartsWith e.1 "__MACOSX" || strStartsWith e.1 "._" then acc
      else alPush (extract_folder_name e.1) e.1 acc)
    []

/-- `read_text_file_from_archive` (`test_case_loader.rs:162-175`): `by_name`
then `read_to_string`; the text is returned as its list of lines. -/
def read_text_file_from_archive (es : Archive) (name : String) :
    Except TestCaseLoadError (List String) :=
  match alLookup es name with
  | none => .error .zipError
  | some (.text lines) => .ok (lines.map lineText)
  | some _ => .error .ioError

/-- `load_binary_file_as_attachment` (`test_case_loader.rs:177-206`):
`by_name`, `read_to_end`, mime from the (lower-cased) name, base64 data URL,
attachment named by the last path segment. -/
def load_binary_file_as_attachment (es : Archive) (name : String) :
    Except TestCaseLoadError TestAttachment :=
  match alLookup es name with
  | none => .error .zipError
  | some .corrupt => .error .ioError
  | some c =>
    .ok { name := lastSegment name, mime_type := determine_mime_type name,
          data_url := c, size_bytes := some (entryByteLen c) }

/-- The per-file classification state inside `load_test_case_from_folder`. -/
structure FolderScan where
  markdown_content : Option (List String)
  screenshots : List TestAttachment
  video : Option TestAttachment
  trace_file : Option TestAttachment

/-- The file loop of `load_test_case_from_folder`
(`test_case_loader.rs:104-128`): classify each file by the lower-cased last
path segment; every read error aborts the folder. -/
def scanFolderFiles (es : Archive) : List String → FolderScan →
    Except TestCaseLoadError FolderScan
  | [], acc => .ok acc
  | fp :: rest, acc =>
    let fname := toLowerStr (lastSegment fp)
    if strEndsWith fname ".md" then
      match read_text_file_from_archive es fp with
      | .error e => .error e
      | .ok lines => scanFolderFiles es rest { acc with markdown_content := some lines }
    else if strEndsWith fname ".png" || strEndsWith fname ".jpg" || strEndsWith fname ".jpeg" then
      match load_binary_file_as_attachment es fp with
      | .error e => .error e
      | .ok att => scanFolderFiles es rest { acc with screenshots := acc.screenshots ++ [att] }
    else if strEndsWith fname ".webm" || strEndsWith fname ".mp4" then
      match load_binary_file_as_attachment es fp with
      | .error e => .error e
      | .ok att => scanFolderFiles es rest { acc with video := some att }
    else if strEndsWith fname ".zip" && strContains fname "trace" then
      match load_binary_file_as_attachment es fp with
      | .error e => .error e
      | .ok att => scanFolderFiles es rest { acc with trace_file := some att }
    else scanFolderFiles es rest acc

/-- `load_test_case_from_folder` (`test_case_loader.rs:94-160`). -/
def load_test_case_from_folder (es : Archive) (folder_name : String)
    (files : List String) : Except TestCaseLoadError TestCase :=
  match scanFolderFiles es files ⟨none, [], none, none⟩ with
  | .error e => .error e
  | .ok scan =>
    let lowerFolder := toLowerStr folder_name
    let failed : Bool :=
      strContains lowerFolder "fail" || strContains lowerFolder "error" ||
        scan.markdown_content.isSome
    let status := if failed then TestStatus.failed else TestStatus.passed
    let error_message :=
      if failed then scan.markdown_content.bind extract_first_line else none
    .ok { id := folder_name, name := format_test_name folder_name, status := status,
          markdown_content := scan.markdown_content, screenshots := scan.screenshots,
          video := scan.video, trace_file := scan.trace_file, duration_ms := none,
          error_message := error_message }

/-- `load_test_cases_from_zip` (`test_case_loader.rs:32-84`): group entries by
folder, then build one test case per folder (in hash-map drain order), where a
folder that fails to load is skipped. -/
def load_test_cases_from_zip (R : HashOrder) (es : Archive) :
    Except TestCaseLoadError TestCaseCollection :=
  let cases := (R _ (folderGroups es)).foldl
    (fun acc g =>
      match load_test_case_from_folder es g.1 g.2 with
      | .ok t => acc ++ [t]
      | .error _ => acc)
    []
  .ok ⟨cases⟩

/- ## The application dispatch (`App::load_file`, `lib.rs:155-220`) -/

/-- The outcomes `App::load_file` can send (`LoadingState` transitions of
`lib.rs`). -/
inductive LoadingOutcome where
  | loadedTrace (model : TraceModel) : LoadingOutcome
  | loadedTestCases (test_cases : TestCaseCollection) : LoadingOutcome
  | loadError : LoadingOutcome

/-- `ZipArchive::new(bytes)` then `load_test_cases_from_zip`: `none` models a
byte buffer that is not a well-formed ZIP container. -/
def load_test_cases_from_bytes (R : HashOrder) (bytes : Option Archive) :
    Except TestCaseLoadError TestCaseCollection :=
  match bytes with
  | none => .error .zipError
  | some es => load_test_cases_from_zip R es

/-- `ZipArchive::new(bytes)` then `load_trace_from_zip`. -/
def load_trace_from_bytes (R : HashOrder) (bytes : Option Archive) :
    Except LoadError TraceModel :=
  match bytes with
  | none => .error .zipError
  | some es => load_trace_from_zip R es

/-- `App::load_file`'s classification (`lib.rs:172-206`): try the test-case
loader FIRST; keep its result when it is `Ok` and non-empty; otherwise fall
back to the trace loader. -/
def app_load_file (R : HashOrder) (bytes : Option Archive) : LoadingOutcome :=
  let tryTrace :=
    match load_trace_from_bytes R bytes with
    | .ok model => LoadingOutcome.loadedTrace model
    | .error _ => LoadingOutcome.loadError
  match load_test_cases_from_bytes R bytes with
  | .ok tc => if !tc.test_cases.isEmpty then .loadedTestCases tc else tryTrace
  | .error _ => tryTrace

/- ## Properties of the final sort -/

/-- The order the final sort establishes: ascending `start_time`. -/
def leStart (a b : ActionEntry) : Prop := a.start_time ≤ b.start_time

theorem insertByStart_perm (a : ActionEntry) (l : List ActionEntry) :
    List.Perm (insertByStart a l) (a :: l) := by
  induction l with
  | nil => exact List.Perm.refl _
  | cons b t ih =>
    unfold insertByStart
    by_cases h : b.start_time ≤ a.start_time
    · simp only [if_pos h]
      exact List.Perm.trans (List.Perm.cons b ih) (List.Perm.swap a b t)
    · simp only [if_neg h]
      exact List.Perm.refl _

theorem foldl_insertByStart_perm :
    ∀ (l acc : List ActionEntry),
      List.Perm (l.foldl (fun acc a => insertByStart a acc) acc) (acc ++ l) := by
  intro l
  induction l with
  | nil => intro acc; simp
  | cons a t ih =>
    intro acc
    have h1 := ih (insertByStart a acc)
    have h2 : List.Perm (insertByStart a acc ++ t) ((a :: acc) ++ t) :=
      List.Perm.append_right t (insertByStart_perm a acc)
    have h3 : List.Perm ((a :: acc) ++ t) (acc ++ a :: t) := by
      simpa using (List.perm_middle).symm
    simpa using h1.trans (h2.trans h3)

theorem sortByStart_perm (l : List ActionEntry) : List.Perm (sortByStart l) l :=
  foldl_insertByStart_perm l []

theorem mem_insertByStart {x a : ActionEntry} {l : List ActionEntry} :
    x ∈ insertByStart a l ↔ x = a ∨ x ∈ l := by
  rw [(insertByStart_perm a l).mem_iff, List.mem_cons]

theorem insertByStart_pairwise (a : ActionEntry) {l : List ActionEntry}
    (h : List.Pairwise leStart l) : List.Pairwise leStart (insertByStart a l) := by
  induction l with
  | nil => simp [insertByStart, List.pairwise_singleton]
  | cons b t ih =>
    rcases List.pairwise_cons.mp h with ⟨hbt, ht⟩
    unfold insertByStart
    by_cases hba : b.start_time ≤ a.start_time
    · simp only [if_pos hba]
      refine List.pairwise_cons.mpr ⟨?_, ih ht⟩
      intro x hx
      rcases mem_insertByStart.mp hx with rfl | hxt
      · exact hba
      · exact hbt x hxt
    · simp only [if_neg hba]
      have hab : a.start_time ≤ b.start_time := le_of_not_le hba
      refine List.pairwise_cons.mpr ⟨?_, h⟩
      intro x hx
      rcases List.mem_cons.mp hx with rfl | hxt
      · exact hab
      · exact le_trans hab (hbt x hxt)

theorem foldl_insertByStart_pairwise :
    ∀ (l acc : List ActionEntry), List.Pairwise leStart acc →
      List.Pairwise leStart (l.foldl (fun acc a => insertByStart a acc) acc) := by
  intro l
  induction l with
  | nil => intro acc h; simpa using h
  | cons a t ih =>
    intro acc h
    exact ih (insertByStart a acc) (insertByStart_pairwise a h)

theorem sortByStart_pairwise (l : List ActionEntry) :
    List.Pairwise leStart (sortByStart l) :=
  foldl_insertByStart_pairwise l [] (List.Pairwise.nil)

/- ## The decoded event stream -/

/-- The events decoded from a list of lines (blank and undecodable lines
contribute nothing). -/
def decodedEvents (lines : List RawLine) : List TraceEvent := lines.filterMap decodeLine

/-- Running the reconstruction loop over a decoded event stream. -/
def runEvents (st : PState) (evs : List TraceEvent) : PState := evs.foldl applyEvent st

theorem runLines_eq_runEvents (lines : List RawLine) :
    ∀ st, runLines st lines = runEvents st (decodedEvents lines) := by
  induction lines with
  | nil => intro st; rfl
  | cons l t ih =>
    intro st
    cases h : decodeLine l with
    | none => simpa [runLines, runEvents, decodedEvents, List.filterMap_cons, h] using ih st
    | some ev =>
      simpa [runLines, runEvents, decodedEvents, List.filterMap_cons, h]
        using ih (applyEvent st ev)

theorem decodedEvents_filter (lines : List RawLine) :
    decodedEvents (lines.filter fun l => (decodeLine l).isSome) = decodedEvents lines := by
  induction lines with
  | nil => rfl
  | cons l t ih =>
    unfold decodedEvents at *
    rw [List.filterMap_cons]
    cases h : decodeLine l with
    | none => simp [List.filter_cons, h, ih]
    | some ev => simp [List.filter_cons, h, List.filterMap_cons, ih]

/- ## Start/end-time bookkeeping -/

/-- The start times of the decoded `before` events, in stream order. -/
def beforeStarts (evs : List TraceEvent) : List ℚ :=
  evs.filterMap fun e => match e with | .before b => some b.start_time | _ => none

/-- The correlation ids of the decoded `before` events, in stream order. -/
def beforeIds (evs : List TraceEvent) : List String :=
  evs.filterMap fun e => match e with | .before b => some b.call_id | _ => none

/-- The end times of the *matched* `after` events: those whose `callId` was
introduced by an earlier `before` (or was already a key of the action map,
tracked by `ks`). -/
def matchedAfterEnds : List TraceEvent → List String → List ℚ
  | [], _ => []
  | .before b :: rest, ks => matchedAfterEnds rest (b.call_id :: ks)
  | .after a :: rest, ks =>
    if a.call_id ∈ ks then a.end_time :: matchedAfterEnds rest ks
    else matchedAfterEnds rest ks
  | _ :: rest, ks => matchedAfterEnds rest ks

theorem alLookup_alInsert {α : Type} (k q : String) (v : α) (m : List (String × α)) :
    alLookup (alInsert k v m) q = if k = q then some v else alLookup m q := by
  induction m with
  | nil =>
    unfold alInsert alLookup
    by_cases h : k = q <;> simp [h, alLookup]
  | cons e rest ih =>
    obtain ⟨k0, v0⟩ := e
    unfold alInsert
    by_cases h0 : k0 = k
    · subst h0
      by_cases hq : k0 = q <;> simp [alLookup, hq]
    · by_cases hq : k0 = q
      · subst hq
        have : ¬k = k0 := fun h => h0 h.symm
        simp [alLookup, h0, this]
      · simp [alLookup, h0, hq, ih]

theorem isSome_alLookup_alInsert {α : Type} (k q : String) (v : α) (m : List (String × α)) :
    (alLookup (alInsert k v m) q).isSome = true ↔ (k = q ∨ (alLookup m q).isSome = true) := by
  rw [alLookup_alInsert]
  by_cases h : k = q <;> simp [h]

/-- Characterisation of the running-minimum fold used for `startTime`. -/
theorem foldl_min_spec (l : List ℚ) :
    ∀ init : ℚ,
      (l.foldl (fun m s => if s < m then s else m) init) ≤ init
      ∧ (∀ s ∈ l, (l.foldl (fun m s => if s < m then s else m) init) ≤ s)
      ∧ ((l.foldl (fun m s => if s < m then s else m) init) = init
          ∨ (l.foldl (fun m s => if s < m then s else m) init) ∈ l) := by
  induction l with
  | nil => intro init; simp
  | cons s t ih =>
    intro init
    rw [List.foldl_cons]
    obtain ⟨h1, h2, h3⟩ := ih (if s < init then s else init)
    have hle : (if s < init then s else init) ≤ init := by
      by_cases h : s < init
      · simpa [h] using le_of_lt h
      · simp [h]
    have hs : (if s < init then s else init) ≤ s := by
      by_cases h : s < init <;> simp [h]
      exact le_of_not_lt h
    refine ⟨le_trans h1 hle, ?_, ?_⟩
    · intro x hx
      rcases List.mem_cons.mp hx with rfl | hxt
      · exact le_trans h1 hs
      · exact h2 x hxt
    · rcases h3 with heq | hmem
      · by_cases h : s < init
        · right; rw [heq]; simp [h]
        · left; rw [heq]; simp [h]
      · right; exact List.mem_cons_of_mem _ hmem

/-- Characterisation of the running-maximum fold used for `endTime`. -/
theorem foldl_max_spec (l : List ℚ) :
    ∀ init : ℚ,
      init ≤ (l.foldl (fun m e2 => if e2 > m then e2 else m) init)
      ∧ (∀ e2 ∈ l, e2 ≤ (l.foldl (fun m e2 => if e2 > m then e2 else m) init))
      ∧ ((l.foldl (fun m e2 => if e2 > m then e2 else m) init) = init
          ∨ (l.foldl (fun m e2 => if e2 > m then e2 else m) init) ∈ l) := by
  induction l with
  | nil => intro init; simp
  | cons s t ih =>
    intro init
    rw [List.foldl_cons]
    obtain ⟨h1, h2, h3⟩ := ih (if s > init then s else init)
    have hle : init ≤ (if s > init then s else init) := by
      by_cases h : s > init
      · simpa [h] using le_of_lt h
      · simp [h]
    have hs : s ≤ (if s > init then s else init) := by
      by_cases h : s > init <;> simp [h]
      exact le_of_not_lt h
    refine ⟨le_trans hle h1, ?_, ?_⟩
    · intro x hx
      rcases List.mem_cons.mp hx with rfl | hxt
      · exact le_trans hs h1
      · exact h2 x hxt
    · rcases h3 with heq | hmem
      · by_cases h : s > init
        · right; rw [heq]; simp [h]
        · left; rw [heq]; simp [h]
      · right; exact List.mem_cons_of_mem _ hmem

/-- The state invariant of the reconstruction loop: after running an event
stream, `startTime` is the running minimum of the `before` start times,
`endTime` is the running maximum of the matched `after` end times, and the
action map's key set is the initial key set plus the `before` ids. -/
theorem runEvents_spec :
    ∀ (evs : List TraceEvent) (st : PState) (ks : List String),
      (∀ k, (alLookup st.actionsMap k).isSome = true ↔ k ∈ ks) →
      ((runEvents st evs).startTime
          = (beforeStarts evs).foldl (fun m s => if s < m then s else m) st.startTime)
      ∧ ((runEvents st evs).endTime
          = (matchedAfterEnds evs ks).foldl (fun m e2 => if e2 > m then e2 else m) st.endTime)
      ∧ (∀ k, (alLookup (runEvents st evs).actionsMap k).isSome = true
            ↔ (k ∈ ks ∨ k ∈ beforeIds evs)) := by
  intro evs
  induction evs with
  | nil =>
    intro st ks hks
    refine ⟨rfl, rfl, ?_⟩
    intro k
    simp [runEvents, beforeIds, hks]
  | cons e rest ih =>
    intro st ks hks
    have hstep : runEvents st (e :: rest) = runEvents (applyEvent st e) rest := rfl
    cases e with
    | before b =>
      have hmap :
          ∀ k, (alLookup (applyEvent st (.before b)).actionsMap k).isSome = true
            ↔ k ∈ (b.call_id :: ks) := by
        intro k
        simp only [applyEvent]
        rw [isSome_alLookup_alInsert]
        simp [hks k, List.mem_cons, eq_comm]
      obtain ⟨ih1, ih2, ih3⟩ := ih (applyEvent st (.before b)) (b.call_id :: ks) hmap
      refine ⟨?_, ?_, ?_⟩
      · rw [hstep, ih1]
        simp [beforeStarts, List.filterMap_cons, applyEvent]
      · rw [hstep, ih2]
        simp [matchedAfterEnds, applyEvent]
      · intro k
        rw [hstep, ih3]
        simp only [beforeIds, List.filterMap_cons, List.mem_cons]
        tauto
    | after a =>
      cases hlook : alLookup st.actionsMap a.call_id with
      | some act =>
        have hin : a.call_id ∈ ks := (hks a.call_id).mp (by simp [hlook])
        have hmap :
            ∀ k, (alLookup (applyEvent st (.after a)).actionsMap k).isSome = true ↔ k ∈ ks := by
          intro k
          simp only [applyEvent, hlook]
          rw [isSome_alLookup_alInsert]
          constructor
          · rintro (rfl | h)
            · exact hin
            · exact (hks k).mp h
          · intro h
            exact Or.inr ((hks k).mpr h)
        obtain ⟨ih1, ih2, ih3⟩ := ih (applyEvent st (.after a)) ks hmap
        refine ⟨?_, ?_, ?_⟩
        · rw [hstep, ih1]
          simp [beforeStarts, List.filterMap_cons, applyEvent, hlook]
        · rw [hstep, ih2]
          simp [matchedAfterEnds, hin, applyEvent, hlook]
        · intro k
          rw [hstep, ih3]
          simp [beforeIds, List.filterMap_cons]
      | none =>
        have hnotin : a.call_id ∉ ks := fun h => by
          have := (hks a.call_id).mpr h
          rw [hlook] at this
          simp at this
        have hmap :
            ∀ k, (alLookup (applyEvent st (.after a)).actionsMap k).isSome = true ↔ k ∈ ks := by
          intro k
          simp only [applyEvent, hlook]
          exact hks k
        obtain ⟨ih1, ih2, ih3⟩ := ih (applyEvent st (.after a)) ks hmap
        refine ⟨?_, ?_, ?_⟩
        · rw [hstep, ih1]
          simp [beforeStarts, List.filterMap_cons, applyEvent, hlook]
        · rw [hstep, ih2]
          simp [matchedAfterEnds, hnotin, applyEvent, hlook]
        · intro k
          rw [hstep, ih3]
          simp [beforeIds, List.filterMap_cons]
    | contextOptions c =>
      have hmap :
          ∀ k, (alLookup (applyEvent st (.contextOptions c)).actionsMap k).isSome = true
            ↔ k ∈ ks := fun k => hks k
      obtain ⟨ih1, ih2, ih3⟩ := ih (applyEvent st (.contextOptions c)) ks hmap
      refine ⟨?_, ?_, ?_⟩
      · rw [hstep, ih1]; simp [beforeStarts, List.filterMap_cons, applyEvent]
      · rw [hstep, ih2]; simp [matchedAfterEnds, applyEvent]
      · intro k; rw [hstep, ih3]; simp [beforeIds, List.filterMap_cons]
    | screencastFrame f =>
      have hmap :
          ∀ k, (alLookup (applyEvent st (.screencastFrame f)).actionsMap k).isSome = true
            ↔ k ∈ ks := fun k => hks k
      obtain ⟨ih1, ih2, ih3⟩ := ih (applyEvent st (.screencastFrame f)) ks hmap
      refine ⟨?_, ?_, ?_⟩
      · rw [hstep, ih1]; simp [beforeStarts, List.filterMap_cons, applyEvent]
      · rw [hstep, ih2]; simp [matchedAfterEnds, applyEvent]
      · intro k; rw [hstep, ih3]; simp [beforeIds, List.filterMap_cons]
    | input i =>
      have hmap :
          ∀ k, (alLookup (applyEvent st (.input i)).actionsMap k).isSome = true
            ↔ k ∈ ks := fun k => hks k
      obtain ⟨ih1, ih2, ih3⟩ := ih (applyEvent st (.input i)) ks hmap
      refine ⟨?_, ?_, ?_⟩
      · rw [hstep, ih1]; simp [beforeStarts, List.filterMap_cons, applyEvent]
      · rw [hstep, ih2]; simp [matchedAfterEnds, applyEvent]
      · intro k; rw [hstep, ih3]; simp [beforeIds, List.filterMap_cons]
    | other =>
      have hmap :
          ∀ k, (alLookup (applyEvent st .other).actionsMap k).isSome = true
            ↔ k ∈ ks := fun k => hks k
      obtain ⟨ih1, ih2, ih3⟩ := ih (applyEvent st .other) ks hmap
      refine ⟨?_, ?_, ?_⟩
      · rw [hstep, ih1]; simp [beforeStarts, List.filterMap_cons, applyEvent]
      · rw [hstep, ih2]; simp [matchedAfterEnds, applyEvent]
      · intro k; rw [hstep, ih3]; simp [beforeIds, List.filterMap_cons]

/-- The network loop touches only the raw event list: every other state
component survives unchanged. -/
theorem runNetwork_preserve :
    ∀ (n : Option (List RawLine)) (st : PState),
      (runNetwork st n).actionsMap = st.actionsMap
      ∧ (runNetwork st n).pagesMap = st.pagesMap
      ∧ (runNetwork st n).startTime = st.startTime
      ∧ (runNetwork st n).endTime = st.endTime
      ∧ (runNetwork st n).browserName = st.browserName
      ∧ (runNetwork st n).platform = st.platform
      ∧ (runNetwork st n).playwrightVersion = st.playwrightVersion
      ∧ (runNetwork st n).wallTime = st.wallTime
      ∧ (runNetwork st n).title = st.title := by
  intro n
  cases n with
  | none => intro st; exact ⟨rfl, rfl, rfl, rfl, rfl, rfl, rfl, rfl, rfl⟩
  | some lines =>
    induction lines with
    | nil => intro st; exact ⟨rfl, rfl, rfl, rfl, rfl, rfl, rfl, rfl, rfl⟩
    | cons l t ih =>
      intro st
      cases h : decodeLine l with
      | none =>
        have hstep : runNetwork st (some (l :: t)) = runNetwork st (some t) := by
          simp [runNetwork, h]
        rw [hstep]; exact ih st
      | some ev =>
        have hstep : runNetwork st (some (l :: t))
            = runNetwork { st with events := st.events ++ [ev] } (some t) := by
          simp [runNetwork, h]
        rw [hstep]
        simpa using ih { st with events := st.events ++ [ev] }

/-- C2: processing an `after` event whose `callId` matches no in-progress
action changes nothing but the raw event list — no action is created or
modified, the action count is unchanged — and trace reconstruction never
fails (its only exit is `Ok`). -/
theorem c2_unmatched_after_is_noop :
    (∀ (st : PState) (a : AfterActionEvent),
        alLookup st.actionsMap a.call_id = none →
        applyEvent st (.after a) = { st with events := st.events ++ [.after a] })
    ∧ (∀ (R : HashOrder) (t : List RawLine) (n : Option (List RawLine)),
        ∃ ctx, parse_trace R t n = .ok ctx) := by
  constructor
  · intro st a h
    simp [applyEvent, h]
  · intro R t n
    exact ⟨_, rfl⟩

theorem c2_witness :
    applyEvent initState (.after ⟨"c9", 5, none, none⟩)
      = { initState with events := initState.events ++ [.after ⟨"c9", 5, none, none⟩] } :=
  c2_unmatched_after_is_noop.1 initState ⟨"c9", 5, none, none⟩ rfl

/-- C3: reconstruction of a trace text in which some non-blank lines fail to
decode produces exactly the same context as reconstruction of the decodable
lines alone — undecodable lines are skipped, the rest are all processed, and
the load still succeeds. -/
theorem c3_undecodable_lines_skipped :
    ∀ (R : HashOrder) (t : List RawLine) (n : Option (List RawLine)),
      parse_trace R t n = parse_trace R (t.filter fun l => (decodeLine l).isSome) n
      ∧ ∃ ctx, parse_trace R t n = .ok ctx := by
  intro R t n
  constructor
  · unfold parse_trace
    rw [runLines_eq_runEvents, runLines_eq_runEvents, decodedEvents_filter]
  · exact ⟨_, rfl⟩

/- ## C4: the context time bounds -/

/-- A trace exercising both discrepancies of the claimed time-bound
invariant: a `context-options` event with small wall/monotonic origin, a
repeated `before` for the same `callId`, and two `after` events for it. -/
def c4lines : List RawLine :=
  [ .json "\x7b\"type\":\"context-options\",\"version\":1,\"browserName\":\"chromium\",\"wallTime\":3,\"monotonicTime\":5\x7d"
      (.obj [("type", .str "context-options"), ("version", .num 1),
             ("browserName", .str "chromium"), ("wallTime", .num 3), ("monotonicTime", .num 5)]),
    .json "\x7b\"type\":\"before\",\"callId\":\"c1\",\"startTime\":100,\"class\":\"Page\",\"method\":\"goto\"\x7d"
      (.obj [("type", .str "before"), ("callId", .str "c1"), ("startTime", .num 100),
             ("class", .str "Page"), ("method", .str "goto")]),
    .json "\x7b\"type\":\"before\",\"callId\":\"c1\",\"startTime\":200,\"class\":\"Page\",\"method\":\"click\"\x7d"
      (.obj [("type", .str "before"), ("callId", .str "c1"), ("startTime", .num 200),
             ("class", .str "Page"), ("method", .str "click")]),
    .json "\x7b\"type\":\"after\",\"callId\":\"c1\",\"endTime\":150\x7d"
      (.obj [("type", .str "after"), ("callId", .str "c1"), ("endTime", .num 150)]),
    .json "\x7b\"type\":\"after\",\"callId\":\"c1\",\"endTime\":120\x7d"
      (.obj [("type", .str "after"), ("callId", .str "c1"), ("endTime", .num 120)]) ]

/-- The context `parse_trace` reconstructs from `c4lines`. -/
def c4ctx : ContextEntry := finalizeCtx idO (runNetwork (runLines initState c4lines) none)

/-- C4 counterexample: a `context-options` event with wall origin `3` and
monotonic origin `5` is present and the single contained action has start
time `200` and end time `120`, yet the produced context has
`startTime = 100` (neither `min {200, 5} = 5` nor `min {200, 3} = 3` nor
`200`) and `endTime = 150` (not the action-end maximum `120`): the claimed
equalities fail on this trace. -/
theorem c4_counterexample :
    parse_trace idO c4lines none = .ok c4ctx
    ∧ ((decodedEvents c4lines).filterMap
        (fun e => match e with
          | .contextOptions c => some (c.wall_time, c.monotonic_time)
          | _ => none)) = [(3, 5)]
    ∧ c4ctx.actions.map (fun a => (a.call_id, a.start_time, a.end_time)) = [("c1", 200, 120)]
    ∧ c4ctx.start_time = 100
    ∧ c4ctx.end_time = 150
    ∧ c4ctx.start_time ≠ 200 ∧ c4ctx.start_time ≠ 5 ∧ c4ctx.start_time ≠ 3
    ∧ c4ctx.end_time ≠ 120 := by
  exact ⟨rfl, by decide, by decide, by decide, by decide, by decide, by decide, by decide,
    by decide⟩

/-- C4 amended: `Context.startTime` is the minimum of the decoded `before`
events' start times together with the sentinel `f64::MAX` (the
`context-options` origin is not consulted, and superseded `before` events for
a re-used `callId` still count), and `Context.endTime` is the maximum of the
matched `after` events' end times together with the initial `0`. -/
theorem c4_amended_time_bounds :
    ∀ (R : HashOrder) (t : List RawLine) (n : Option (List RawLine)) (ctx : ContextEntry),
      parse_trace R t n = .ok ctx →
      (∀ s ∈ beforeStarts (decodedEvents t), ctx.start_time ≤ s)
      ∧ (ctx.start_time = f64MAX ∨ ctx.start_time ∈ beforeStarts (decodedEvents t))
      ∧ (∀ e2 ∈ matchedAfterEnds (decodedEvents t) [], e2 ≤ ctx.end_time)
      ∧ (ctx.end_time = 0 ∨ ctx.end_time ∈ matchedAfterEnds (decodedEvents t) []) := by
  intro R t n ctx h
  unfold parse_trace at h
  injection h with h
  obtain ⟨hspec1, hspec2, -⟩ :=
    runEvents_spec (decodedEvents t) initState []
      (by intro k; simp [initState, alLookup])
  obtain ⟨-, -, hnet1, hnet2, -⟩ := runNetwork_preserve n (runLines initState t)
  have hstart : ctx.start_time
      = (beforeStarts (decodedEvents t)).foldl (fun m s => if s < m then s else m) f64MAX := by
    rw [← h]
    show (runNetwork (runLines initState t) n).startTime = _
    rw [hnet1, runLines_eq_runEvents, hspec1]
    rfl
  have hend : ctx.end_time
      = (matchedAfterEnds (decodedEvents t) []).foldl
          (fun m e2 => if e2 > m then e2 else m) 0 := by
    rw [← h]
    show (runNetwork (runLines initState t) n).endTime = _
    rw [hnet2, runLines_eq_runEvents, hspec2]
    rfl
  obtain ⟨-, hmin2, hmin3⟩ := foldl_min_spec (beforeStarts (decodedEvents t)) f64MAX
  obtain ⟨-, hmax2, hmax3⟩ := foldl_max_spec (matchedAfterEnds (decodedEvents t) []) 0
  rw [hstart, hend]
  exact ⟨hmin2, hmin3, hmax2, hmax3⟩

theorem c4_amended_witness :
    (∀ s ∈ beforeStarts (decodedEvents c4lines), c4ctx.start_time ≤ s)
    ∧ (c4ctx.start_time = f64MAX ∨ c4ctx.start_time ∈ beforeStarts (decodedEvents c4lines))
    ∧ (∀ e2 ∈ matchedAfterEnds (decodedEvents c4lines) [], e2 ≤ c4ctx.end_time)
    ∧ (c4ctx.end_time = 0 ∨ c4ctx.end_time ∈ matchedAfterEnds (decodedEvents c4lines) []) :=
  c4_amended_time_bounds idO c4lines none c4ctx rfl

/- ## C1: ordering of `Context.actions` -/

theorem parse_trace_sorted (R : HashOrder) (t : List RawLine)
    (n : Option (List RawLine)) (ctx : ContextEntry)
    (h : parse_trace R t n = .ok ctx) : List.Pairwise leStart ctx.actions := by
  unfold parse_trace at h
  injection h with h
  rw [← h]
  exact sortByStart_pairwise _

theorem load_one_ordinal_sorted (R : HashOrder) (es : Archive) (ordinal : String)
    (ctx : ContextEntry) (h : load_one_ordinal R es ordinal = .ok ctx) :
    List.Pairwise leStart ctx.actions := by
  unfold load_one_ordinal at h
  cases hr : read_file_from_archive es (ordinal ++ ".trace") with
  | error e => rw [hr] at h; cases h
  | ok t =>
    rw [hr] at h
    cases hn : alLookup es (ordinal ++ ".network") with
    | none =>
      simp only [hn] at h
      exact parse_trace_sorted R t none ctx h
    | some _ =>
      simp only [hn] at h
      cases hr2 : read_file_from_archive es (ordinal ++ ".network") with
      | error e => rw [hr2] at h; cases h
      | ok nl =>
        rw [hr2] at h
        exact parse_trace_sorted R t (some nl) ctx h

theorem load_ordinal_list_spec (R : HashOrder) (es : Archive) :
    ∀ (ords : List String) (ctxs : List ContextEntry),
      load_ordinal_list R es ords = .ok ctxs →
      ctxs.length = ords.length ∧ ∀ c ∈ ctxs, List.Pairwise leStart c.actions := by
  intro ords
  induction ords with
  | nil =>
    intro ctxs h
    unfold load_ordinal_list at h
    injection h with h
    rw [← h]
    simp
  | cons o rest ih =>
    intro ctxs h
    unfold load_ordinal_list at h
    cases h1 : load_one_ordinal R es o with
    | error e => rw [h1] at h; cases h
    | ok ctx =>
      rw [h1] at h
      cases h2 : load_ordinal_list R es rest with
      | error e => rw [h2] at h; cases h
      | ok tl =>
        rw [h2] at h
        injection h with h
        obtain ⟨hlen, hall⟩ := ih tl h2
        rw [← h]
        refine ⟨by simp [hlen], ?_⟩
        intro c hc
        rcases List.mem_cons.mp hc with rfl | hct
        · exact load_one_ordinal_sorted R es o c h1
        · exact hall c hct

theorem load_single_spec (R : HashOrder) (es : Archive) (m : TraceModel)
    (h : load_single_trace_archive R es = .ok m) :
    m.contexts ≠ [] ∧ ∀ c ∈ m.contexts, List.Pairwise leStart c.actions := by
  unfold load_single_trace_archive at h
  by_cases he : (traceOrdinals es).isEmpty
  · rw [if_pos he] at h; cases h
  · rw [if_neg he] at h
    cases hl : load_ordinal_list R es (traceOrdinals es) with
    | error e => rw [hl] at h; cases h
    | ok ctxs =>
      rw [hl] at h
      injection h with h
      obtain ⟨hlen, hall⟩ := load_ordinal_list_spec R es (traceOrdinals es) ctxs hl
      constructor
      · rw [← h]
        intro hnil
        have hctxs : ctxs = [] := hnil
        rw [hctxs] at hlen
        have : traceOrdinals es = [] :=
          List.eq_nil_of_length_eq_zero (by simpa using hlen.symm)
        rw [this] at he
        exact he rfl
      · rw [← h]
        exact hall

/-- The fuel-indexed induction behind the C1 theorem: any successful load
yields a non-empty context list, every context of which has its actions
sorted ascending by start time. -/
theorem load_trace_sorted_aux :
    ∀ (fuel : Nat) (es : Archive) (R : HashOrder) (m : TraceModel),
      sizeOf es ≤ fuel → load_trace_from_zip R es = .ok m →
      m.contexts ≠ [] ∧ ∀ c ∈ m.contexts, List.Pairwise leStart c.actions := by
  intro fuel
  induction fuel using Nat.strong_induction_on with
  | _ fuel ih =>
    intro es R m hsz h
    unfold load_trace_from_zip at h
    by_cases hrep : es.any (fun e => isDataZip e.1) = true
    · rw [if_pos hrep] at h
      unfold load_report_archive at h
      by_cases hne : (es.filter fun e => isDataZip e.1).isEmpty
      · rw [if_pos hne] at h; cases h
      · rw [if_neg hne] at h
        have hlist : ∀ (l : Archive), sizeOf l ≤ fuel →
            ∀ ls, load_nested_list R l = .ok ls →
              ls.length = l.length
              ∧ ∀ cs ∈ ls, cs ≠ [] ∧ ∀ c ∈ cs, List.Pairwise leStart c.actions := by
          intro l
          induction l with
          | nil =>
            intro _ ls hls
            unfold load_nested_list at hls
            injection hls with hls
            rw [← hls]
            exact ⟨rfl, by intro cs hcs; cases hcs⟩
          | cons e rest ihl =>
            intro hszl ls hls
            obtain ⟨name, c⟩ := e
            have hszrest : sizeOf rest ≤ fuel := by
              simp only [List.cons.sizeOf_spec] at hszl
              omega
            unfold load_nested_list at hls
            cases c with
            | zip sub =>
              simp only at hls
              cases hsub : load_trace_from_zip R sub with
              | error e2 => rw [hsub] at hls; cases hls
              | ok msub =>
                rw [hsub] at hls
                cases hrest : load_nested_list R rest with
                | error e2 => rw [hrest] at hls; cases hls
                | ok ms =>
                  rw [hrest] at hls
                  injection hls with hls
                  have hszsub : sizeOf sub < fuel := by
                    simp only [List.cons.sizeOf_spec, Prod.mk.sizeOf_spec,
                      EntryContent.zip.sizeOf_spec] at hszl ⊢
                    omega
                  obtain ⟨hsubne, hsuball⟩ := ih (sizeOf sub) hszsub sub R msub le_rfl hsub
                  obtain ⟨hlen, hall⟩ := ihl hszrest ms hrest
                  rw [← hls]
                  refine ⟨by simp [hlen], ?_⟩
                  intro cs hcs
                  rcases List.mem_cons.mp hcs with rfl | hcst
                  · exact ⟨hsubne, hsuball⟩
                  · exact hall cs hcst
            | text lines => simp only at hls; cases hls
            | bin d => simp only at hls; cases hls
            | corrupt => simp only at hls; cases hls
        cases hl : load_nested_list R (es.filter fun e => isDataZip e.1) with
        | error e2 => rw [hl] at h; cases h
        | ok ls =>
          rw [hl] at h
          injection h with h
          have hszfil : sizeOf (es.filter fun e => isDataZip e.1) ≤ fuel :=
            le_trans (sizeOf_filter_le _ es) hsz
          obtain ⟨hlen, hall⟩ := hlist _ hszfil ls hl
          constructor
          · rw [← h]
            simp only [ne_eq]
            intro hflat
            have hlsne : ls ≠ [] := by
              intro hnil
              rw [hnil] at hlen
              have hfilnil : (es.filter fun e => isDataZip e.1) = [] :=
                List.eq_nil_of_length_eq_zero (by simpa using hlen.symm)
              rw [hfilnil] at hne
              exact hne rfl
            obtain ⟨cs, hcs⟩ := List.exists_mem_of_ne_nil ls hlsne
            obtain ⟨hcne, -⟩ := hall cs hcs
            obtain ⟨x, hx⟩ := List.exists_mem_of_ne_nil cs hcne
            have hxmem : x ∈ ls.flatten := List.mem_flatten.mpr ⟨cs, hcs, hx⟩
            rw [hflat] at hxmem
            cases hxmem
          · rw [← h]
            intro c hc
            simp only [List.mem_flatten] at hc
            obtain ⟨cs, hcs, hccs⟩ := hc
            exact (hall cs hcs).2 c hccs
    · rw [if_neg hrep] at h
      exact load_single_spec R es m h

/-- C1 amended: for every archive a successful `load_trace_from_zip` yields a
non-empty context list whose every context has `actions` sorted ascending by
start time (for every possible hash-map drain order); equal start times keep
the *drain* order of the action map, which is not guaranteed to be the
original insertion order. -/
theorem c1_amended_actions_sorted :
    ∀ (R : HashOrder) (es : Archive) (m : TraceModel),
      load_trace_from_zip R es = .ok m →
      m.contexts ≠ [] ∧ ∀ c ∈ m.contexts, List.Pairwise leStart c.actions :=
  fun R es m h => load_trace_sorted_aux (sizeOf es) es R m le_rfl h

/-- Two `before` events with equal start times and distinct `callId`s, in
arrival order `c1` then `c2`. -/
def c1lines : List RawLine :=
  [ .json "\x7b\"type\":\"before\",\"callId\":\"c1\",\"startTime\":100,\"class\":\"Page\",\"method\":\"goto\"\x7d"
      (.obj [("type", .str "before"), ("callId", .str "c1"), ("startTime", .num 100),
             ("class", .str "Page"), ("method", .str "goto")]),
    .json "\x7b\"type\":\"before\",\"callId\":\"c2\",\"startTime\":100,\"class\":\"Page\",\"method\":\"click\"\x7d"
      (.obj [("type", .str "before"), ("callId", .str "c2"), ("startTime", .num 100),
             ("class", .str "Page"), ("method", .str "click")]) ]

/-- The context reconstructed from `c1lines` in the execution whose action
map drains in reverse order. -/
def c1tiectx : ContextEntry := finalizeCtx revO (runNetwork (runLines initState c1lines) none)

/-- C1 counterexample: the two actions arrive (and are inserted) in order
`c1`, `c2` with equal start times, yet the execution in which the hash map
drains in reverse order — a legitimate execution, since `HashMap` iteration
order is unspecified — produces `actions = [c2, c1]`: ties do NOT keep the
original insertion order. -/
theorem c1_counterexample :
    ValidOrder revO
    ∧ beforeIds (decodedEvents c1lines) = ["c1", "c2"]
    ∧ beforeStarts (decodedEvents c1lines) = [100, 100]
    ∧ parse_trace revO c1lines none = .ok c1tiectx
    ∧ c1tiectx.actions.map (·.call_id) = ["c2", "c1"] :=
  ⟨revO_valid, by decide, by decide, rfl, by decide⟩

/-- The same two-action trace packed as a single-trace archive. -/
def c1arch : Archive := [("0.trace", .text c1lines)]

theorem c1arch_loads :
    load_trace_from_zip idO c1arch
      = .ok ⟨[finalizeCtx idO (runNetwork (runLines initState c1lines) none)]⟩ := by
  unfold load_trace_from_zip
  rfl

theorem c1_amended_witness :
    (TraceModel.mk [finalizeCtx idO (runNetwork (runLines initState c1lines) none)]).contexts ≠ []
    ∧ ∀ c ∈ (TraceModel.mk
        [finalizeCtx idO (runNetwork (runLines initState c1lines) none)]).contexts,
        List.Pairwise leStart c.actions :=
  c1_amended_actions_sorted idO c1arch _ c1arch_loads

/- ## C9: the worked `before`/`after` example -/

/-- The two example lines of the spec: a `before` for `c1` at 100 with
`method` `goto` and a `url` parameter, then an `after` for `c1` at 150. -/
def c9lines : List RawLine :=
  [ .json "\x7b\"type\":\"before\",\"callId\":\"c1\",\"startTime\":100,\"class\":\"Page\",\"method\":\"goto\",\"params\":\x7b\"url\":\"https://x\"\x7d\x7d"
      (.obj [("type", .str "before"), ("callId", .str "c1"), ("startTime", .num 100),
             ("class", .str "Page"), ("method", .str "goto"),
             ("params", .obj [("url", .str "https://x")])]),
    .json "\x7b\"type\":\"after\",\"callId\":\"c1\",\"endTime\":150\x7d"
      (.obj [("type", .str "after"), ("callId", .str "c1"), ("endTime", .num 150)]) ]

/-- An archive whose single entry `0.trace` holds the two example lines. -/
def c9arch : Archive := [("0.trace", .text c9lines)]

/-- The single action the example reconstructs. -/
def c9act : ActionEntry :=
  { action_type := "before", call_id := "c1", start_time := 100, end_time := 150,
    title := none, cls := some "Page", method := some "goto",
    params := [("url", Json.str "https://x")], page_id := none, parent_id := none,
    error := none, log := [] }

/-- C9: loading the example archive yields one context with exactly one
action, whose `callId` is `"c1"`, start time 100, end time 150, method
`"goto"`, and whose params mapping contains the key `"url"` — in every
possible execution (any valid drain order). -/
theorem c9_example_archive :
    ∀ R : HashOrder, ValidOrder R →
      ∃ ctx : ContextEntry,
        load_trace_from_zip R c9arch = .ok ⟨[ctx]⟩
        ∧ ctx.actions = [c9act]
        ∧ c9act.call_id = "c1" ∧ c9act.start_time = 100 ∧ c9act.end_time = 150
        ∧ c9act.method = some "goto" ∧ "url" ∈ c9act.params.map Prod.fst := by
  intro R hR
  refine ⟨finalizeCtx R (runNetwork (runLines initState c9lines) none), ?_, ?_, rfl, by decide,
    by decide, rfl, by decide⟩
  · unfold load_trace_from_zip
    rfl
  · show sortByStart ((R _ ((runNetwork (runLines initState c9lines) none).actionsMap)).map
      Prod.snd) = [c9act]
    have hmap : (runNetwork (runLines initState c9lines) none).actionsMap
        = [("c1", c9act)] := rfl
    have hRs : R _ [("c1", c9act)] = [("c1", c9act)] :=
      List.perm_singleton.mp (hR _ [("c1", c9act)])
    rw [hmap, hRs]
    rfl

theorem c9_witness :
    ∃ ctx : ContextEntry,
      load_trace_from_zip idO c9arch = .ok ⟨[ctx]⟩
      ∧ ctx.actions = [c9act]
      ∧ c9act.call_id = "c1" ∧ c9act.start_time = 100 ∧ c9act.end_time = 150
      ∧ c9act.method = some "goto" ∧ "url" ∈ c9act.params.map Prod.fst :=
  c9_example_archive idO idO_valid

/- ## C7: recursion depth -/

/-- A report archive wrapping a trivial single-trace archive under `n` levels
of `data/*.zip` nesting. -/
def deepArchive : Nat → Archive
  | 0 => [("0.trace", .text [])]
  | n + 1 => [("data/nested.zip", .zip (deepArchive n))]

/-- Loading a report archive that holds exactly one nested archive: the
nested result's contexts are passed through. -/
theorem load_report_singleton (R : HashOrder) (name : String) (sub : Archive)
    (hname : isDataZip name = true) (m : TraceModel)
    (hsub : load_trace_from_zip R sub = .ok m) :
    load_trace_from_zip R [(name, .zip sub)] = .ok ⟨m.contexts⟩ := by
  have hany : (([(name, EntryContent.zip sub)] : Archive).any fun e => isDataZip e.1) = true := by
    simp [hname]
  have hfil : (([(name, EntryContent.zip sub)] : Archive).filter fun e => isDataZip e.1)
      = [(name, .zip sub)] := by
    simp [List.filter, hname]
  unfold load_trace_from_zip
  rw [if_pos hany]
  unfold load_report_archive
  rw [hfil]
  have hnil : load_nested_list R ([] : Archive) = .ok [] := by
    unfold load_nested_list
    rfl
  have hnested : load_nested_list R [(name, .zip sub)] = .ok [m.contexts] := by
    unfold load_nested_list
    simp only [hsub, hnil]
  simp [hnested]

/-- C7: the code enforces NO maximum nesting depth — `LoadError` has no
`ArchiveTooDeep` variant at all (its four variants are listed exhaustively),
and a report archive nested to ANY depth `n` loads successfully instead of
failing beyond some bound. -/
theorem c7_no_depth_limit :
    (∀ e : LoadError,
      e = .zipError ∨ e = .ioError ∨ e = .parseError ∨ e = .missingTraceFile)
    ∧ ∀ (R : HashOrder) (n : Nat), ∃ m, load_trace_from_zip R (deepArchive n) = .ok m := by
  constructor
  · intro e
    cases e
    · exact Or.inl rfl
    · exact Or.inr (Or.inl rfl)
    · exact Or.inr (Or.inr (Or.inl rfl))
    · exact Or.inr (Or.inr (Or.inr rfl))
  · intro R n
    induction n with
    | zero => exact ⟨_, by unfold load_trace_from_zip; rfl⟩
    | succ k ih =>
      obtain ⟨m, hm⟩ := ih
      exact ⟨⟨m.contexts⟩,
        load_report_singleton R "data/nested.zip" (deepArchive k) (by decide) m hm⟩

/- ## C6: report bundles -/

/-- A report archive holding the given archives as `data/*.zip` entries, in
order. -/
def reportOf (inners : List Archive) : Archive :=
  inners.map fun a => ("data/trace.zip", EntryContent.zip a)

/-- Loading each nested archive independently, first failure aborting —
exactly the `for`/`?` sequencing of `load_report_archive`. -/
def loadAllTraces (R : HashOrder) : List Archive → Except LoadError (List TraceModel)
  | [] => .ok []
  | a :: rest =>
    match load_trace_from_zip R a with
    | .error e => .error e
    | .ok m =>
      match loadAllTraces R rest with
      | .error e => .error e
      | .ok ms => .ok (m :: ms)

theorem load_nested_list_reportOf (R : HashOrder) :
    ∀ inners : List Archive,
      load_nested_list R (reportOf inners)
        = Except.map (fun ms => ms.map TraceModel.contexts) (loadAllTraces R inners) := by
  intro inners
  induction inners with
  | nil =>
    unfold load_nested_list loadAllTraces reportOf
    rfl
  | cons a rest ih =>
    have hre : reportOf (a :: rest) = ("data/trace.zip", EntryContent.zip a) :: reportOf rest :=
      rfl
    rw [hre]
    unfold load_nested_list loadAllTraces
    cases h1 : load_trace_from_zip R a with
    | error e => simp [h1, Except.map]
    | ok m =>
      simp only [h1]
      cases h2 : loadAllTraces R rest with
      | error e => simp [ih, h2, Except.map]
      | ok ms => simp [ih, h2, Except.map]

theorem load_report_reportOf (R : HashOrder) (inners : List Archive) (hne : inners ≠ []) :
    load_trace_from_zip R (reportOf inners)
      = Except.map (fun ms => TraceModel.mk ((ms.map TraceModel.contexts).flatten))
          (loadAllTraces R inners) := by
  obtain ⟨a, rest, rfl⟩ : ∃ a rest, inners = a :: rest := by
    cases inners with
    | nil => exact absurd rfl hne
    | cons a rest => exact ⟨a, rest, rfl⟩
  have hany : ((reportOf (a :: rest)).any fun e => isDataZip e.1) = true := by
    have : isDataZip "data/trace.zip" = true := by decide
    simp [reportOf, this]
  have hfil : ((reportOf (a :: rest)).filter fun e => isDataZip e.1) = reportOf (a :: rest) := by
    rw [List.filter_eq_self]
    intro x hx
    obtain ⟨b, -, rfl⟩ := List.mem_map.mp hx
    show isDataZip "data/trace.zip" = true
    decide
  have hempty : (reportOf (a :: rest)).isEmpty = false := rfl
  unfold load_trace_from_zip
  rw [if_pos hany]
  unfold load_report_archive
  rw [hfil]
  simp only [hempty, Bool.false_eq_true, if_false]
  rw [load_nested_list_reportOf]
  cases h : loadAllTraces R (a :: rest) with
  | error e => simp [Except.map]
  | ok ms => simp [Except.map]

theorem loadAllTraces_replicate (R : HashOrder) (inner : Archive) (m : TraceModel)
    (h : load_trace_from_zip R inner = .ok m) :
    ∀ n, loadAllTraces R (List.replicate n inner) = .ok (List.replicate n m) := by
  intro n
  induction n with
  | zero => rfl
  | succ k ih =>
    rw [List.replicate_succ]
    unfold loadAllTraces
    rw [h, ih]
    rfl

theorem loadAllTraces_append_error (R : HashOrder) :
    ∀ (pre : List Archive) (bad : Archive) (post : List Archive) (e : LoadError),
      (∀ a ∈ pre, ∃ m, load_trace_from_zip R a = .ok m) →
      load_trace_from_zip R bad = .error e →
      loadAllTraces R (pre ++ bad :: post) = .error e := by
  intro pre
  induction pre with
  | nil =>
    intro bad post e _ hbad
    rw [List.nil_append]
    unfold loadAllTraces
    rw [hbad]
  | cons a rest ih =>
    intro bad post e hok hbad
    obtain ⟨m, hm⟩ := hok a (List.mem_cons_self a rest)
    have hrest := ih bad post e (fun x hx => hok x (List.mem_cons_of_mem a hx)) hbad
    rw [List.cons_append]
    unfold loadAllTraces
    rw [hm]
    simp only [hrest]

/-- C6: a report archive (entries `data/*.zip`) loads every nested archive
recursively and independently, concatenating all resulting contexts in entry
order — N copies of one archive yield exactly N copies of its contexts — and
the first nested archive that fails to load fails the whole load with its
error (no partial success). -/
theorem c6_report_bundles :
    (∀ (R : HashOrder) (inners : List Archive), inners ≠ [] →
      ∀ ms, loadAllTraces R inners = .ok ms →
        load_trace_from_zip R (reportOf inners)
          = .ok ⟨(ms.map TraceModel.contexts).flatten⟩)
    ∧ (∀ (R : HashOrder) (inners : List Archive), inners ≠ [] →
      ∀ e, loadAllTraces R inners = .error e →
        load_trace_from_zip R (reportOf inners) = .error e)
    ∧ (∀ (R : HashOrder) (pre : List Archive) (bad : Archive) (post : List Archive)
        (e : LoadError),
      (∀ a ∈ pre, ∃ m, load_trace_from_zip R a = .ok m) →
      load_trace_from_zip R bad = .error e →
        load_trace_from_zip R (reportOf (pre ++ bad :: post)) = .error e)
    ∧ (∀ (R : HashOrder) (inner : Archive) (m : TraceModel) (n : Nat), 0 < n →
      load_trace_from_zip R inner = .ok m →
        load_trace_from_zip R (reportOf (List.replicate n inner))
          = .ok ⟨(List.replicate n m.contexts).flatten⟩) := by
  refine ⟨?_, ?_, ?_, ?_⟩
  · intro R inners hne ms h
    rw [load_report_reportOf R inners hne, h]
    rfl
  · intro R inners hne e h
    rw [load_report_reportOf R inners hne, h]
    rfl
  · intro R pre bad post e hok hbad
    have hne : pre ++ bad :: post ≠ [] := by simp
    rw [load_report_reportOf R _ hne, loadAllTraces_append_error R pre bad post e hok hbad]
    rfl
  · intro R inner m n hn h
    have hne : List.replicate n inner ≠ [] := by
      intro hnil
      have := congrArg List.length hnil
      simp at this
      omega
    rw [load_report_reportOf R _ hne, loadAllTraces_replicate R inner m h n]
    simp [Except.map, List.map_replicate]

/-- A trivial valid single-trace archive for the C6 witness. -/
def c6inner : Archive := [("0.trace", .text [])]

/-- The model `c6inner` loads to (in the identity-drain execution). -/
def c6model : TraceModel := ⟨[finalizeCtx idO (runNetwork (runLines initState []) none)]⟩

theorem c6inner_loads : load_trace_from_zip idO c6inner = .ok c6model := by
  unfold load_trace_from_zip
  rfl

theorem c6_witness :
    load_trace_from_zip idO (reportOf (List.replicate 2 c6inner))
      = .ok ⟨(List.replicate 2 c6model.contexts).flatten⟩ :=
  c6_report_bundles.2.2.2 idO c6inner c6model 2 (by decide) c6inner_loads

/- ## C5: classification order -/

/-- A minimal valid single-trace archive: one `.trace` entry, no `data/*.zip`. -/
def c5arch : Archive := [("0.trace", .text [])]

/-- The test case the test-case loader builds out of the `0.trace` entry
itself (the flat file becomes a "folder" named `0.trace`). -/
def c5case : TestCase :=
  { id := "0.trace", name := "0.trace", status := .passed, markdown_content := none,
    screenshots := [], video := none, trace_file := none, duration_ms := none,
    error_message := none }

/-- C5 counterexample: `c5arch` has a `.trace` entry and no `data/*.zip`
entry, and the trace loader does load it successfully — yet `App::load_file`
yields a `TestCaseCollection`, not a `TraceModel`, because it attempts
test-case grouping FIRST and that grouping is non-empty for any flat
archive. -/
theorem c5_counterexample :
    load_trace_from_zip idO c5arch
      = .ok ⟨[finalizeCtx idO (runNetwork (runLines initState []) none)]⟩
    ∧ (c5arch.any fun e => isDataZip e.1) = false
    ∧ (c5arch.any fun e => strEndsWith e.1 ".trace") = true
    ∧ app_load_file idO (some c5arch) = .loadedTestCases ⟨[c5case]⟩ := by
  refine ⟨?_, by decide, by decide, rfl⟩
  unfold load_trace_from_zip
  rfl

/-- C5 amended: *within the trace loader* the rules are checked in the
claimed order with first match winning — any `data/*.zip` entry selects the
report path, otherwise the single-trace path runs — but the application does
NOT consult the trace loader first: `App::load_file` attempts test-case
grouping first and returns its collection whenever it is non-empty, reaching
the trace loader only when the collection is empty or the test-case load
fails. -/
theorem c5_amended_dispatch :
    (∀ (R : HashOrder) (es : Archive),
      (es.any fun e => isDataZip e.1) = true →
        load_trace_from_zip R es = load_report_archive R es)
    ∧ (∀ (R : HashOrder) (es : Archive),
      (es.any fun e => isDataZip e.1) = false →
        load_trace_from_zip R es = load_single_trace_archive R es)
    ∧ (∀ (R : HashOrder) (es : Archive) (tc : TestCaseCollection),
      load_test_cases_from_zip R es = .ok tc → tc.test_cases ≠ [] →
        app_load_file R (some es) = .loadedTestCases tc)
    ∧ (∀ (R : HashOrder) (es : Archive) (tc : TestCaseCollection) (m : TraceModel),
      load_test_cases_from_zip R es = .ok tc → tc.test_cases = [] →
      load_trace_from_zip R es = .ok m →
        app_load_file R (some es) = .loadedTrace m) := by
  refine ⟨?_, ?_, ?_, ?_⟩
  · intro R es h
    unfold load_trace_from_zip
    rw [if_pos h]
  · intro R es h
    unfold load_trace_from_zip
    rw [if_neg (by simp [h])]
  · intro R es tc h1 h2
    have hne : tc.test_cases.isEmpty = false := by
      cases htc : tc.test_cases with
      | nil => exact absurd htc h2
      | cons a t => rfl
    unfold app_load_file load_test_cases_from_bytes
    simp [h1, hne]
  · intro R es tc m h1 h2 h3
    have hemp : tc.test_cases.isEmpty = true := by rw [h2]; rfl
    unfold app_load_file load_test_cases_from_bytes load_trace_from_bytes
    simp [h1, hemp, h3]

theorem c5_amended_witness :
    app_load_file idO (some c5arch) = .loadedTestCases ⟨[c5case]⟩ :=
  c5_amended_dispatch.2.2.1 idO c5arch ⟨[c5case]⟩ rfl (List.cons_ne_nil _ _)

/- ## C8: per-folder failure isolation -/

theorem foldl_collect_cases (es : Archive) :
    ∀ (gs : List (String × List String)) (acc : List TestCase),
      gs.foldl
        (fun acc g =>
          match load_test_case_from_folder es g.1 g.2 with
          | .ok t => acc ++ [t]
          | .error _ => acc)
        acc
      = acc ++ gs.filterMap (fun g => (load_test_case_from_folder es g.1 g.2).toOption) := by
  intro gs
  induction gs with
  | nil => intro acc; simp
  | cons g rest ih =>
    intro acc
    rw [List.foldl_cons, List.filterMap_cons]
    cases h : load_test_case_from_folder es g.1 g.2 with
    | error e => simp [h, Except.toOption, ih]
    | ok t => simp [h, Except.toOption, ih]

/-- C8: the test-case load always succeeds, and its collection consists of
exactly the folders whose own files all load — a folder whose load fails is
skipped without affecting any other folder's record and without failing the
whole load. -/
theorem c8_folder_isolation :
    ∀ R : HashOrder, ValidOrder R → ∀ es : Archive,
      ∃ tc, load_test_cases_from_zip R es = .ok tc
        ∧ (∀ g ∈ folderGroups es, ∀ t, load_test_case_from_folder es g.1 g.2 = .ok t →
            t ∈ tc.test_cases)
        ∧ (∀ t ∈ tc.test_cases, ∃ g ∈ folderGroups es,
            load_test_case_from_folder es g.1 g.2 = .ok t) := by
  intro R hR es
  refine ⟨⟨(R _ (folderGroups es)).filterMap
      (fun g => (load_test_case_from_folder es g.1 g.2).toOption)⟩, ?_, ?_, ?_⟩
  · unfold load_test_cases_from_zip
    rw [foldl_collect_cases es (R _ (folderGroups es)) []]
    rfl
  · intro g hg t ht
    have hgR : g ∈ R _ (folderGroups es) := ((hR _ (folderGroups es)).mem_iff).mpr hg
    exact List.mem_filterMap.mpr ⟨g, hgR, by rw [ht]; rfl⟩
  · intro t ht
    obtain ⟨g, hg, hgt⟩ := List.mem_filterMap.mp ht
    refine ⟨g, ((hR _ (folderGroups es)).mem_iff).mp hg, ?_⟩
    cases h : load_test_case_from_folder es g.1 g.2 with
    | error e => rw [h] at hgt; cases hgt
    | ok t' =>
      rw [h] at hgt
      simp only [Except.toOption] at hgt
      injection hgt with hgt
      rw [hgt]

/-- A two-folder archive: `good/` loads, `bad/` has an unreadable markdown
file. -/
def c8arch : Archive :=
  [ ("good/shot.png", .bin [1, 2, 3]),
    ("bad/notes.md", .corrupt) ]

theorem c8_witness :
    ∃ tc, load_test_cases_from_zip idO c8arch = .ok tc
      ∧ (∀ g ∈ folderGroups c8arch, ∀ t, load_test_case_from_folder c8arch g.1 g.2 = .ok t →
          t ∈ tc.test_cases)
      ∧ (∀ t ∈ tc.test_cases, ∃ g ∈ folderGroups c8arch,
          load_test_case_from_folder c8arch g.1 g.2 = .ok t) :=
  c8_folder_isolation idO idO_valid c8arch

/- ## C10: determinism across runs -/

/-- Two contexts agree up to hash-drain order: every scalar field, the raw
events, errors and resources coincide; actions and pages coincide as
multisets (up to permutation). -/
def ctxAgrees (c₁ c₂ : ContextEntry) : Prop :=
  c₁.start_time = c₂.start_time ∧ c₁.end_time = c₂.end_time
  ∧ c₁.browser_name = c₂.browser_name ∧ c₁.platform = c₂.platform
  ∧ c₁.playwright_version = c₂.playwright_version ∧ c₁.wall_time = c₂.wall_time
  ∧ c₁.title = c₂.title ∧ c₁.resources = c₂.resources ∧ c₁.events = c₂.events
  ∧ c₁.errors = c₂.errors
  ∧ List.Perm c₁.actions c₂.actions ∧ List.Perm c₁.pages c₂.pages

/-- Two trace models agree pointwise: equally many contexts, agreeing in
order. -/
def modelAgrees (m₁ m₂ : TraceModel) : Prop :=
  List.Forall₂ ctxAgrees m₁.contexts m₂.contexts

/-- Two load results agree: both fail with the same error, or both succeed
with agreeing values. -/
def exceptAgrees {α : Type} (P : α → α → Prop) :
    Except LoadError α → Except LoadError α → Prop
  | .error e₁, .error e₂ => e₁ = e₂
  | .ok a, .ok b => P a b
  | _, _ => False

theorem finalize_agrees (R₁ R₂ : HashOrder) (h₁ : ValidOrder R₁) (h₂ : ValidOrder R₂)
    (st : PState) : ctxAgrees (finalizeCtx R₁ st) (finalizeCtx R₂ st) := by
  refine ⟨rfl, rfl, rfl, rfl, rfl, rfl, rfl, rfl, rfl, rfl, ?_, ?_⟩
  · show List.Perm (sortByStart ((R₁ _ st.actionsMap).map Prod.snd))
      (sortByStart ((R₂ _ st.actionsMap).map Prod.snd))
    have hperm : List.Perm ((R₁ _ st.actionsMap).map Prod.snd)
        ((R₂ _ st.actionsMap).map Prod.snd) :=
      ((h₁ _ st.actionsMap).map Prod.snd).trans ((h₂ _ st.actionsMap).map Prod.snd).symm
    exact ((sortByStart_perm _).trans hperm).trans (sortByStart_perm _).symm
  · show List.Perm ((R₁ _ st.pagesMap).map Prod.snd) ((R₂ _ st.pagesMap).map Prod.snd)
    exact ((h₁ _ st.pagesMap).map Prod.snd).trans ((h₂ _ st.pagesMap).map Prod.snd).symm

theorem forall₂_flatten {α : Type} {P : α → α → Prop} :
    ∀ {l₁ l₂ : List (List α)}, List.Forall₂ (List.Forall₂ P) l₁ l₂ →
      List.Forall₂ P l₁.flatten l₂.flatten :=
  fun h => List.rel_flatten h

theorem load_one_ordinal_agrees (R₁ R₂ : HashOrder) (h₁ : ValidOrder R₁)
    (h₂ : ValidOrder R₂) (es : Archive) (ordinal : String) :
    exceptAgrees ctxAgrees (load_one_ordinal R₁ es ordinal)
      (load_one_ordinal R₂ es ordinal) := by
  unfold load_one_ordinal
  cases hr : read_file_from_archive es (ordinal ++ ".trace") with
  | error e => exact rfl
  | ok t =>
    cases hn : alLookup es (ordinal ++ ".network") with
    | none =>
      simp only
      exact finalize_agrees R₁ R₂ h₁ h₂ _
    | some _ =>
      simp only
      cases hr2 : read_file_from_archive es (ordinal ++ ".network") with
      | error e => exact rfl
      | ok nl => exact finalize_agrees R₁ R₂ h₁ h₂ _

theorem load_ordinal_list_agrees (R₁ R₂ : HashOrder) (h₁ : ValidOrder R₁)
    (h₂ : ValidOrder R₂) (es : Archive) :
    ∀ ords : List String,
      exceptAgrees (List.Forall₂ ctxAgrees) (load_ordinal_list R₁ es ords)
        (load_ordinal_list R₂ es ords) := by
  intro ords
  induction ords with
  | nil =>
    unfold load_ordinal_list
    exact List.Forall₂.nil
  | cons o rest ih =>
    have hone := load_one_ordinal_agrees R₁ R₂ h₁ h₂ es o
    unfold load_ordinal_list
    cases ho1 : load_one_ordinal R₁ es o with
    | error e =>
      cases ho2 : load_one_ordinal R₂ es o with
      | error e' =>
        rw [ho1, ho2] at hone
        exact hone
      | ok c =>
        rw [ho1, ho2] at hone
        cases hone
    | ok c₁ =>
      cases ho2 : load_one_ordinal R₂ es o with
      | error e' =>
        rw [ho1, ho2] at hone
        cases hone
      | ok c₂ =>
        rw [ho1, ho2] at hone
        cases hl1 : load_ordinal_list R₁ es rest with
        | error e =>
          cases hl2 : load_ordinal_list R₂ es rest with
          | error e' =>
            rw [hl1, hl2] at ih
            exact ih
          | ok cs =>
            rw [hl1, hl2] at ih
            cases ih
        | ok cs₁ =>
          cases hl2 : load_ordinal_list R₂ es rest with
          | error e' =>
            rw [hl1, hl2] at ih
            cases ih
          | ok cs₂ =>
            rw [hl1, hl2] at ih
            exact List.Forall₂.cons hone ih

theorem load_single_agrees (R₁ R₂ : HashOrder) (h₁ : ValidOrder R₁) (h₂ : ValidOrder R₂)
    (es : Archive) :
    exceptAgrees modelAgrees (load_single_trace_archive R₁ es)
      (load_single_trace_archive R₂ es) := by
  unfold load_single_trace_archive
  by_cases he : (traceOrdinals es).isEmpty
  · rw [if_pos he, if_pos he]
    exact rfl
  · rw [if_neg he, if_neg he]
    have hlist := load_ordinal_list_agrees R₁ R₂ h₁ h₂ es (traceOrdinals es)
    cases hl1 : load_ordinal_list R₁ es (traceOrdinals es) with
    | error e =>
      cases hl2 : load_ordinal_list R₂ es (traceOrdinals es) with
      | error e' =>
        rw [hl1, hl2] at hlist
        exact hlist
      | ok cs =>
        rw [hl1, hl2] at hlist
        cases hlist
    | ok cs₁ =>
      cases hl2 : load_ordinal_list R₂ es (traceOrdinals es) with
      | error e' =>
        rw [hl1, hl2] at hlist
        cases hlist
      | ok cs₂ =>
        rw [hl1, hl2] at hlist
        exact hlist

/-- The fuel-indexed induction behind the C10 theorem: two executions of
`load_trace_from_zip` over the same bytes, with possibly different hash drain
orders, fail with the same error or produce agreeing models. -/
theorem load_trace_agrees_aux :
    ∀ (fuel : Nat) (es : Archive) (R₁ R₂ : HashOrder),
      ValidOrder R₁ → ValidOrder R₂ → sizeOf es ≤ fuel →
      exceptAgrees modelAgrees (load_trace_from_zip R₁ es) (load_trace_from_zip R₂ es) := by
  intro fuel
  induction fuel using Nat.strong_induction_on with
  | _ fuel ih =>
    intro es R₁ R₂ h₁ h₂ hsz
    unfold load_trace_from_zip
    by_cases hrep : (es.any fun e => isDataZip e.1) = true
    · rw [if_pos hrep, if_pos hrep]
      unfold load_report_archive
      by_cases hne : (es.filter fun e => isDataZip e.1).isEmpty
      · simp only [hne, if_true]
        exact rfl
      · simp only [hne, Bool.false_eq_true, if_false]
        have hlist : ∀ l : Archive, sizeOf l ≤ fuel →
            exceptAgrees (List.Forall₂ (List.Forall₂ ctxAgrees))
              (load_nested_list R₁ l) (load_nested_list R₂ l) := by
          intro l
          induction l with
          | nil =>
            intro _
            unfold load_nested_list
            exact List.Forall₂.nil
          | cons e rest ihl =>
            intro hszl
            obtain ⟨name, c⟩ := e
            have hszrest : sizeOf rest ≤ fuel := by
              simp only [List.cons.sizeOf_spec] at hszl
              omega
            unfold load_nested_list
            cases c with
            | zip sub =>
              have hszsub : sizeOf sub < fuel := by
                simp only [List.cons.sizeOf_spec, Prod.mk.sizeOf_spec,
                  EntryContent.zip.sizeOf_spec] at hszl
                omega
              have hsub := ih (sizeOf sub) hszsub sub R₁ R₂ h₁ h₂ le_rfl
              have hrest := ihl hszrest
              cases hs1 : load_trace_from_zip R₁ sub with
              | error e1 =>
                cases hs2 : load_trace_from_zip R₂ sub with
                | error e2 =>
                  rw [hs1, hs2] at hsub
                  simp only [hs1, hs2]
                  exact hsub
                | ok m2 =>
                  rw [hs1, hs2] at hsub
                  cases hsub
              | ok m1 =>
                cases hs2 : load_trace_from_zip R₂ sub with
                | error e2 =>
                  rw [hs1, hs2] at hsub
                  cases hsub
                | ok m2 =>
                  rw [hs1, hs2] at hsub
                  cases hr1 : load_nested_list R₁ rest with
                  | error e1 =>
                    cases hr2 : load_nested_list R₂ rest with
                    | error e2 =>
                      rw [hr1, hr2] at hrest
                      simp only [hs1, hs2, hr1, hr2]
                      exact hrest
                    | ok ls =>
                      rw [hr1, hr2] at hrest
                      cases hrest
                  | ok ls₁ =>
                    cases hr2 : load_nested_list R₂ rest with
                    | error e2 =>
                      rw [hr1, hr2] at hrest
                      cases hrest
                    | ok ls₂ =>
                      rw [hr1, hr2] at hrest
                      simp only [hs1, hs2, hr1, hr2]
                      exact List.Forall₂.cons hsub hrest
            | text lines => exact rfl
            | bin d => exact rfl
            | corrupt => exact rfl
        have hns := hlist (es.filter fun e => isDataZip e.1)
          (le_trans (sizeOf_filter_le _ es) hsz)
        cases hv1 : load_nested_list R₁ (es.filter fun e => isDataZip e.1) with
        | error e1 =>
          cases hv2 : load_nested_list R₂ (es.filter fun e => isDataZip e.1) with
          | error e2 =>
            rw [hv1, hv2] at hns
            simp only [hv1, hv2]
            exact hns
          | ok ls =>
            rw [hv1, hv2] at hns
            cases hns
        | ok ls₁ =>
          cases hv2 : load_nested_list R₂ (es.filter fun e => isDataZip e.1) with
          | error e2 =>
            rw [hv1, hv2] at hns
            cases hns
          | ok ls₂ =>
            rw [hv1, hv2] at hns
            simp only [hv1, hv2]
            exact forall₂_flatten hns
    · rw [if_neg hrep, if_neg hrep]
      exact load_single_agrees R₁ R₂ h₁ h₂ es

/-- C10 amended: loading the same bytes twice is deterministic *up to
hash-map drain order*.  Any two executions (valid drain orders) of
`load_trace_from_zip` on the same bytes fail with the same error or produce
models with equally many contexts whose scalar fields, raw events, errors and
resources are equal and whose actions and pages agree up to permutation; any
two executions of `load_test_cases_from_zip` produce collections that agree
up to permutation of the test cases.  Full structural equality does not hold:
the orderings of pages, of equal-start-time actions and of test cases depend
on the per-map hash seed, hidden state that is not a function of the input
bytes. -/
theorem c10_amended_determinism :
    ∀ R₁ R₂ : HashOrder, ValidOrder R₁ → ValidOrder R₂ →
      (∀ es : Archive,
        exceptAgrees modelAgrees (load_trace_from_zip R₁ es) (load_trace_from_zip R₂ es))
      ∧ (∀ (es : Archive) (t₁ t₂ : TestCaseCollection),
        load_test_cases_from_zip R₁ es = .ok t₁ →
        load_test_cases_from_zip R₂ es = .ok t₂ →
        List.Perm t₁.test_cases t₂.test_cases) := by
  intro R₁ R₂ h₁ h₂
  constructor
  · intro es
    exact load_trace_agrees_aux (sizeOf es) es R₁ R₂ h₁ h₂ le_rfl
  · intro es t₁ t₂ ht₁ ht₂
    unfold load_test_cases_from_zip at ht₁ ht₂
    rw [foldl_collect_cases es _ []] at ht₁ ht₂
    injection ht₁ with ht₁
    injection ht₂ with ht₂
    have hperm : List.Perm (R₁ _ (folderGroups es)) (R₂ _ (folderGroups es)) :=
      (h₁ _ (folderGroups es)).trans (h₂ _ (folderGroups es)).symm
    have := hperm.filterMap fun g => (load_test_case_from_folder es g.1 g.2).toOption
    rw [← ht₁, ← ht₂]
    simpa using this

/-- A trace producing two pages, `A` then `B`. -/
def c10lines : List RawLine :=
  [ .json "\x7b\"type\":\"screencast-frame\",\"pageId\":\"A\",\"sha1\":\"aa\",\"width\":8,\"height\":6,\"timestamp\":1\x7d"
      (.obj [("type", .str "screencast-frame"), ("pageId", .str "A"), ("sha1", .str "aa"),
             ("width", .num 8), ("height", .num 6), ("timestamp", .num 1)]),
    .json "\x7b\"type\":\"screencast-frame\",\"pageId\":\"B\",\"sha1\":\"bb\",\"width\":8,\"height\":6,\"timestamp\":2\x7d"
      (.obj [("type", .str "screencast-frame"), ("pageId", .str "B"), ("sha1", .str "bb"),
             ("width", .num 8), ("height", .num 6), ("timestamp", .num 2)]) ]

/-- The two-page archive used to separate two executions. -/
def c10arch : Archive := [("0.trace", .text c10lines)]

/-- The per-context page-id lists of a load result. -/
def pageIdsOf : Except LoadError TraceModel → List (List String)
  | .ok m => m.contexts.map fun c => c.pages.map (·.page_id)
  | .error _ => []

/-- C10 counterexample: two legitimate executions over the same bytes (drain
orders `idO` and `revO`, both valid) produce structurally different models —
the pages of the single context come out as `[A, B]` in one run and `[B, A]`
in the other — so loading the same bytes twice need NOT yield structurally
equal models. -/
theorem c10_counterexample :
    ValidOrder idO ∧ ValidOrder revO
    ∧ pageIdsOf (load_trace_from_zip idO c10arch) = [["A", "B"]]
    ∧ pageIdsOf (load_trace_from_zip revO c10arch) = [["B", "A"]]
    ∧ load_trace_from_zip idO c10arch ≠ load_trace_from_zip revO c10arch := by
  have e1 : load_trace_from_zip idO c10arch
      = .ok ⟨[finalizeCtx idO (runNetwork (runLines initState c10lines) none)]⟩ := by
    unfold load_trace_from_zip
    rfl
  have e2 : load_trace_from_zip revO c10arch
      = .ok ⟨[finalizeCtx revO (runNetwork (runLines initState c10lines) none)]⟩ := by
    unfold load_trace_from_zip
    rfl
  have p1 : pageIdsOf (load_trace_from_zip idO c10arch) = [["A", "B"]] := by
    rw [e1]; decide
  have p2 : pageIdsOf (load_trace_from_zip revO c10arch) = [["B", "A"]] := by
    rw [e2]; decide
  refine ⟨idO_valid, revO_valid, p1, p2, ?_⟩
  intro heq
  have := congrArg pageIdsOf heq
  rw [p1, p2] at this
  exact absurd this (by decide)

theorem c10_amended_witness :
    exceptAgrees modelAgrees (load_trace_from_zip idO c10arch)
      (load_trace_from_zip revO c10arch) :=
  (c10_amended_determinism idO revO idO_valid revO_valid).1 c10arch
